import Mathlib

set_option maxRecDepth 4000

/-!
Shallow embedding of the payment/rollup state-transition core
(`src/common/src/common.rs`, `l1_engine.rs`, `l2_engine.rs`).

Modelling conventions:
* SHA-256 digests are 32-byte values; we model a digest as a token list
  (`Hash := List Nat`) and the hash function as a free injective constructor
  over the stream of absorbed chunks, so equal absorbed streams give equal
  digests and distinct streams give distinct digests (the symbolic model of a
  collision-resistant hash).
* ECDSA keys are identified by a `Nat`; a signing key and its verifying key
  share the identifier.  A signature records the signing key and the signed
  digest; verification checks both, which models correct deterministic ECDSA.
* Rust `u32`/`u128` arithmetic is modelled on `Nat` with explicit checked
  operations: an addition or subtraction that would leave the machine range
  returns `none`, modelling the arithmetic panic of the checked (debug/test)
  profile under which this repository's own test suite runs.  A panic anywhere
  (arithmetic, `unwrap()`, out-of-bounds indexing) surfaces as `none` at the
  operation's interface.
* `BTreeMap` (and the dedup `HashMap` contents) are modelled as key-sorted
  association lists; the unspecified `HashMap` iteration order is exposed as an
  explicit reordering parameter on the engines.
-/

/-- A 32-byte digest, modelled as a token list. -/
abbrev Hash := List Nat

abbrev AccountID := Hash

/-- The `&'static str` error tags. -/
abbrev Tag := String

/-- One `hasher.update(...)` chunk: a big-endian integer of a given byte width,
a SEC1-uncompressed public key, a 32-byte digest, raw bytes, or the bytes of a
signature. -/
inductive HD where
  | natBE (w v : Nat) : HD
  | pkc (k : Nat) : HD
  | hsh (x : Hash) : HD
  | raw (bs : List Nat) : HD
  | sigc (k : Nat) (m : Hash) : HD
deriving DecidableEq, Repr

/-- Injective token encoding of one chunk. -/
def HD.enc : HD → List Nat
  | .natBE w v => [0, w, v]
  | .pkc k => [1, k]
  | .hsh x => 2 :: x.length :: x
  | .raw bs => 3 :: bs.length :: bs
  | .sigc k m => 4 :: k :: m.length :: m

/-- `hasher.finalize()` after absorbing the chunk stream `l`. -/
def sha (l : List HD) : Hash :=
  1 :: List.flatten (l.map HD.enc)

/-- `Hash::default()`: 32 zero bytes. -/
def zeroHash : Hash := List.replicate 32 0

/-- `pk_to_hash`: SHA-256 of the SEC1 encoding of a public key. -/
def pk_to_hash (pk : Nat) : Hash := sha [HD.pkc pk]

/-- An ECDSA signature: the key that produced it and the digest it signs. -/
structure Sig where
  key : Nat
  msg : Hash
deriving DecidableEq, Repr

/-! Checked machine arithmetic.  `none` models the overflow panic. -/

def U32LIM : Nat := 2 ^ 32
def U128LIM : Nat := 2 ^ 128

def add32 (a b : Nat) : Option Nat := if a + b < U32LIM then some (a + b) else none
def add128 (a b : Nat) : Option Nat := if a + b < U128LIM then some (a + b) else none
def sub128 (a b : Nat) : Option Nat := if b ≤ a then some (a - b) else none

/-! Key-sorted association lists, the model of `BTreeMap` and of the trie's
key-to-leaf mapping. -/

/-- Byte-wise lexicographic order on keys (the `Ord` of `[u8; 32]`). -/
def keyLt : List Nat → List Nat → Bool
  | [], [] => false
  | [], _ :: _ => true
  | _ :: _, [] => false
  | a :: as, b :: bs => a.blt b || (a.beq b && keyLt as bs)

/-- Insert-or-replace keeping the list sorted by `keyLt`. -/
def sinsert (k : Hash) (v : α) : List (Hash × α) → List (Hash × α)
  | [] => [(k, v)]
  | (k1, v1) :: t =>
    if keyLt k k1 then (k, v) :: (k1, v1) :: t
    else if k = k1 then (k, v) :: t
    else (k1, v1) :: sinsert k v t

/-- `BTreeMap::get`. -/
def alookup (k : Hash) : List (Hash × α) → Option α
  | [] => none
  | (k1, v1) :: t => if k = k1 then some v1 else alookup k t

/-- Modelled from the spec: the authenticated trie is the external
`partial_binary_merkle::PartialMerkleTrie` crate, which is not part of `src/`.
Per the spec's contract (§4.1) it is a deterministic key-to-leaf mapping with
32-byte keys and leaves whose root is a function of that mapping; we represent
it by the sorted association list of its entries. -/
structure PartialMerkleTrie where
  entries : List (Hash × Hash)
deriving DecidableEq, Repr

def PartialMerkleTrie.new : PartialMerkleTrie := ⟨[]⟩

def PartialMerkleTrie.insert_or_replace (t : PartialMerkleTrie) (k leaf : Hash) :
    PartialMerkleTrie := ⟨sinsert k leaf t.entries⟩

def PartialMerkleTrie.insert_or_replace_batch (t : PartialMerkleTrie)
    (kvs : List (Hash × Hash)) : PartialMerkleTrie :=
  kvs.foldl (fun t kv => t.insert_or_replace kv.1 kv.2) t

def PartialMerkleTrie.get (t : PartialMerkleTrie) (k : Hash) : Option Hash :=
  alookup k t.entries

/-- Modelled from the spec: the root is a deterministic function of the
key-to-leaf mapping ("same inserts → same root", §4.1). -/
def PartialMerkleTrie.root (t : PartialMerkleTrie) : Hash :=
  sha (List.flatten (t.entries.map fun kv => [HD.hsh kv.1, HD.hsh kv.2]))

/-- Modelled from the spec: the witness-complete subtree for a key set,
represented by the restriction of the mapping to those keys. -/
def PartialMerkleTrie.get_partial (t : PartialMerkleTrie) (ids : List Hash) :
    PartialMerkleTrie :=
  ⟨t.entries.filter (fun kv => ids.contains kv.1)⟩

/-- Modelled from the spec: internal consistency of a partial trie with its
advertised root; in the mapping representation it holds by construction. -/
def PartialMerkleTrie.verify_partial (_t : PartialMerkleTrie) : Bool := true

/-! Accounts and rollup sub-state. -/

structure RollupState where
  inbox : List Hash
  header_hash : Hash
  sqn : Nat
deriving DecidableEq, Repr

/-- `RollupState::hash` feeds the enclosing account hasher; it finalizes
nothing itself, so we expose its chunk contribution. -/
def RollupState.chunks (r : RollupState) : List HD :=
  r.inbox.map HD.hsh ++ [HD.hsh r.header_hash, HD.natBE 4 r.sqn]

structure Account where
  owner : Nat
  amount : Nat
  sqn_expect : Nat
  rollup : Option RollupState
deriving DecidableEq, Repr

def Account.new (owner amount : Nat) (rollup : Option RollupState) : Account :=
  { owner := owner, amount := amount, sqn_expect := 0, rollup := rollup }

def Account.hash (a : Account) : Hash :=
  sha ([HD.pkc a.owner, HD.natBE 16 a.amount, HD.natBE 4 a.sqn_expect] ++
    (match a.rollup with
     | none => []
     | some r => r.chunks))

def Account.id (a : Account) : Hash := pk_to_hash a.owner

/-! Transaction envelopes and the six payloads. -/

/-- The `TxPayload` trait: payload-specific hash contribution and
sender qualification. -/
class TxPayload (α : Type) where
  pchunks : α → List HD
  sender_qualify : α → Account → Bool

structure Tx (α : Type) where
  sender : Nat
  sqn : Nat
  payload : α
  sig : Sig
deriving DecidableEq, Repr

/-- Chunk stream signed by `Tx::new` and checked by `sig_verify`. -/
def signChunks [TxPayload α] (sender sqn : Nat) (p : α) : List HD :=
  HD.pkc sender :: HD.natBE 4 sqn :: TxPayload.pchunks p

def Tx.new [TxPayload α] (sender sqn : Nat) (payload : α) (signing_key : Nat) : Tx α :=
  { sender := sender, sqn := sqn, payload := payload,
    sig := { key := signing_key, msg := sha (signChunks sender sqn payload) } }

def Tx.id [TxPayload α] (tx : Tx α) : Hash :=
  sha (signChunks tx.sender tx.sqn tx.payload ++ [HD.sigc tx.sig.key tx.sig.msg])

def Tx.sig_verify [TxPayload α] (tx : Tx α) : Bool :=
  tx.sig.key == tx.sender && tx.sig.msg == sha (signChunks tx.sender tx.sqn tx.payload)

structure Payment where
  -- source field name `to` (a Lean keyword)
  toPk : Nat
  amount : Nat
deriving DecidableEq, Repr

instance : TxPayload Payment where
  pchunks p := [HD.pkc p.toPk, HD.natBE 16 p.amount]
  sender_qualify p a := decide (p.amount ≤ a.amount)

structure CreateRollupAccount where
  rollup_pk : Nat
deriving DecidableEq, Repr

instance : TxPayload CreateRollupAccount where
  pchunks p := [HD.pkc p.rollup_pk]
  sender_qualify _ _ := true

structure L1ToL2Deposit where
  rollup_pk : Nat
  amount : Nat
deriving DecidableEq, Repr

instance : TxPayload L1ToL2Deposit where
  pchunks p := [HD.pkc p.rollup_pk, HD.natBE 16 p.amount]
  sender_qualify p a := decide (p.amount ≤ a.amount)

structure L2ToL1Withdrawal where
  amount : Nat
deriving DecidableEq, Repr

instance : TxPayload L2ToL1Withdrawal where
  pchunks p := [HD.natBE 16 p.amount]
  sender_qualify p a := decide (p.amount ≤ a.amount)

structure RollupStateUpdate where
  proof_receipt : List Nat
deriving DecidableEq, Repr

instance : TxPayload RollupStateUpdate where
  pchunks p := [HD.raw p.proof_receipt]
  sender_qualify _ _ := true

structure WithdrawalRecord where
  -- source field name `to` (a Lean keyword)
  toPk : Nat
  amount : Nat
deriving DecidableEq, Repr

inductive Transaction where
  | Pay (tx : Tx Payment)
  | Deposit (tx : Tx L1ToL2Deposit)
  | RollupCreate (tx : Tx CreateRollupAccount)
  | RollupUpdate (tx : Tx RollupStateUpdate)
  | DepositL2 (tx : Tx L1ToL2Deposit)
  | Withdrawal (tx : Tx L2ToL1Withdrawal)
deriving DecidableEq, Repr

def Transaction.tid : Transaction → Hash
  | .Pay t => t.id
  | .Deposit t => t.id
  | .RollupCreate t => t.id
  | .RollupUpdate t => t.id
  | .DepositL2 t => t.id
  | .Withdrawal t => t.id

def tx_set_hash (txns : List Transaction) : Hash :=
  sha (txns.map fun t => HD.hsh t.tid)

/-! Block headers. -/

structure BlockHeaderL1 where
  parent : Hash
  state_root : Hash
  sqn : Nat
  txns_hash : Hash
  events : List (Tx L1ToL2Deposit)
deriving DecidableEq, Repr

def BlockHeaderL1.hash (h : BlockHeaderL1) : Hash :=
  sha [HD.hsh h.parent, HD.hsh h.state_root, HD.natBE 4 h.sqn, HD.hsh h.txns_hash]

structure BlockHeaderL2 where
  parent : Hash
  state_root : Hash
  sqn : Nat
  txns_hash : Hash
  inbox_msg_hash : Hash
  inbox_msg_count : Nat
  withdrawals : List WithdrawalRecord
deriving DecidableEq, Repr

def BlockHeaderL2.hash (h : BlockHeaderL2) : Hash :=
  sha ([HD.hsh h.parent, HD.hsh h.state_root, HD.natBE 4 h.sqn, HD.hsh h.txns_hash,
        HD.hsh h.inbox_msg_hash, HD.natBE 4 h.inbox_msg_count] ++
    List.flatten (h.withdrawals.map fun w => [HD.pkc w.toPk, HD.natBE 16 w.amount]))

/-! The account book. -/

structure AccountBook where
  proof_tree : PartialMerkleTrie
  accounts : List (AccountID × Account)
deriving DecidableEq, Repr

def AccountBook.new (faucet_key faucet_amout : Nat) : AccountBook :=
  let a := Account.new faucet_key faucet_amout none
  { proof_tree := PartialMerkleTrie.new.insert_or_replace a.id a.hash,
    accounts := sinsert a.id a [] }

def AccountBook.root (b : AccountBook) : Hash := b.proof_tree.root

def AccountBook.get_num_accounts (b : AccountBook) : Nat := b.accounts.length

/-- Result of a mutating book operation: `none` is a panic; otherwise the
error-or-change-set together with the book as left behind. -/
abbrev BookRet := Option (Except Tag (List (AccountID × Hash)) × AccountBook)

def AccountBook.sender_check [TxPayload α] (b : AccountBook) (tx : Tx α) :
    Except Tag AccountID :=
  if !tx.sig_verify then .error "sig"
  else
    let id_sender := pk_to_hash tx.sender
    match alookup id_sender b.accounts with
    | some a_sender =>
      if a_sender.sqn_expect ≠ tx.sqn then .error "sqn"
      else if !(TxPayload.sender_qualify tx.payload a_sender) then .error "sender"
      else .ok id_sender
    | none => .error "account"

def AccountBook.process_payment (b : AccountBook) (tx : Tx Payment) : BookRet :=
  match b.sender_check tx with
  | .error e => some (.error e, b)
  | .ok id_sender => do
    let a_sender ← alookup id_sender b.accounts
    let amt ← sub128 a_sender.amount tx.payload.amount
    let sq ← add32 a_sender.sqn_expect 1
    let a_sender : Account := { a_sender with amount := amt, sqn_expect := sq }
    let accs := sinsert id_sender a_sender b.accounts
    let a_sender_h := a_sender.hash
    let id_to := pk_to_hash tx.payload.toPk
    match alookup id_to accs with
    | none =>
      let a_to := Account.new tx.payload.toPk tx.payload.amount none
      some (.ok [(id_sender, a_sender_h), (id_to, a_to.hash)],
            { b with accounts := sinsert id_to a_to accs })
    | some a_to => do
      let amt2 ← add128 a_to.amount tx.payload.amount
      let a_to : Account := { a_to with amount := amt2 }
      some (.ok [(id_sender, a_sender_h), (id_to, a_to.hash)],
            { b with accounts := sinsert id_to a_to accs })

def AccountBook.process_create_rollup_account (b : AccountBook)
    (tx : Tx CreateRollupAccount) : BookRet :=
  match b.sender_check tx with
  | .error e => some (.error e, b)
  | .ok id_sender =>
    let id_to := pk_to_hash tx.payload.rollup_pk
    match alookup id_to b.accounts with
    | some _ => some (.error "exist", b)
    | none => do
      let a_sender ← alookup id_sender b.accounts
      let sq ← add32 a_sender.sqn_expect 1
      let a_sender : Account := { a_sender with sqn_expect := sq }
      let accs := sinsert id_sender a_sender b.accounts
      let rus : RollupState := { inbox := [], header_hash := zeroHash, sqn := 0 }
      let a_to := Account.new tx.payload.rollup_pk 0 (some rus)
      some (.ok [(id_sender, a_sender.hash), (id_to, a_to.hash)],
            { b with accounts := sinsert id_to a_to accs })

def AccountBook.process_deposit_l1 (b : AccountBook) (tx : Tx L1ToL2Deposit) : BookRet :=
  match b.sender_check tx with
  | .error e => some (.error e, b)
  | .ok id_sender =>
    let id_to := pk_to_hash tx.payload.rollup_pk
    match alookup id_to b.accounts with
    | none => some (.error "missing", b)
    | some a_to =>
      match a_to.rollup with
      | none => some (.error "not rollup account", b)
      | some rollup_state => do
        let amt ← add128 a_to.amount tx.payload.amount
        let a_to : Account :=
          { a_to with amount := amt,
                      rollup := some { rollup_state with inbox := rollup_state.inbox ++ [tx.id] } }
        let accs := sinsert id_to a_to b.accounts
        let a_to_h := a_to.hash
        let a_sender ← alookup id_sender accs
        let amt2 ← sub128 a_sender.amount tx.payload.amount
        let sq ← add32 a_sender.sqn_expect 1
        let a_sender : Account := { a_sender with amount := amt2, sqn_expect := sq }
        some (.ok [(id_to, a_to_h), (id_sender, a_sender.hash)],
              { b with accounts := sinsert id_sender a_sender accs })

def AccountBook.process_deposit_l2 (b : AccountBook) (tx : Tx L1ToL2Deposit) : BookRet :=
  let id_to := pk_to_hash tx.sender
  match alookup id_to b.accounts with
  | none =>
    let a_to := Account.new tx.sender tx.payload.amount none
    some (.ok [(id_to, a_to.hash)], { b with accounts := sinsert id_to a_to b.accounts })
  | some a_to => do
    let amt ← add128 a_to.amount tx.payload.amount
    let a_to : Account := { a_to with amount := amt }
    some (.ok [(id_to, a_to.hash)], { b with accounts := sinsert id_to a_to b.accounts })

/-- `process_withdrawal` also appends to the caller-provided record list. -/
def AccountBook.process_withdrawal (b : AccountBook) (tx : Tx L2ToL1Withdrawal)
    (w_records : List WithdrawalRecord) :
    Option (Except Tag (List (AccountID × Hash)) × AccountBook × List WithdrawalRecord) :=
  match b.sender_check tx with
  | .error e => some (.error e, b, w_records)
  | .ok id_sender => do
    let a_sender ← alookup id_sender b.accounts
    let amt ← sub128 a_sender.amount tx.payload.amount
    let sq ← add32 a_sender.sqn_expect 1
    let a_sender : Account := { a_sender with amount := amt, sqn_expect := sq }
    some (.ok [(id_sender, a_sender.hash)],
          { b with accounts := sinsert id_sender a_sender b.accounts },
          w_records ++ [{ toPk := tx.sender, amount := tx.payload.amount }])

/-- The inbox prefix read `rollup.inbox[i]` for `i < n`: out-of-bounds
indexing of the `VecDeque` is a panic. -/
def inboxTake (inbox : List Hash) (n : Nat) : Option (List Hash) :=
  if n ≤ inbox.length then some (inbox.take n) else none

/-- `get_account_or_new` followed by `acc.amount += w.amount` for one
withdrawal record. -/
def creditWithdrawal (accs : List (AccountID × Account)) (w : WithdrawalRecord) :
    Option (List (AccountID × Account)) :=
  let aid := pk_to_hash w.toPk
  match alookup aid accs with
  | none => do
    let acc := Account.new w.toPk 0 none
    let amt ← add128 acc.amount w.amount
    some (sinsert aid { acc with amount := amt } accs)
  | some acc => do
    let amt ← add128 acc.amount w.amount
    some (sinsert aid { acc with amount := amt } accs)

/-- Sum of the withdrawal amounts (`ws += w.amount`, checked). -/
def sumWithdrawals (ws : List WithdrawalRecord) : Option Nat :=
  ws.foldlM (fun acc w => add128 acc w.amount) 0

def AccountBook.process_rollup_state_update (b : AccountBook) (tx : Tx RollupStateUpdate)
    (valid_receipt : List Nat → Except Tag BlockHeaderL2) : BookRet :=
  match b.sender_check tx with
  | .error e => some (.error e, b)
  | .ok id_sender =>
    match valid_receipt tx.payload.proof_receipt with
    | .error e => some (.error e, b)
    | .ok header => do
      let a_sender ← alookup id_sender b.accounts
      match a_sender.rollup with
      | none => some (.error "account_rollup", b)
      | some rollup =>
        if header.parent ≠ rollup.header_hash then some (.error "parent", b)
        else if header.sqn ≠ rollup.sqn then some (.error "sqn", b)
        else do
          let msgs ← inboxTake rollup.inbox header.inbox_msg_count
          let x := sha (msgs.map HD.hsh)
          if x ≠ header.inbox_msg_hash then some (.error "inbox", b)
          else do
            let ws ← sumWithdrawals header.withdrawals
            if a_sender.amount < ws then some (.error "withdraw", b)
            else do
              let rollup : RollupState :=
                { inbox := rollup.inbox.drop header.inbox_msg_count,
                  header_hash := header.hash,
                  sqn := ← add32 rollup.sqn 1 }
              let amt ← sub128 a_sender.amount ws
              let sq ← add32 a_sender.sqn_expect 1
              let a_sender : Account :=
                { a_sender with amount := amt, sqn_expect := sq, rollup := some rollup }
              let accs := sinsert id_sender a_sender b.accounts
              let hashes := [(id_sender, a_sender.hash)]
              let accs ← header.withdrawals.foldlM creditWithdrawal accs
              some (.ok hashes, { b with accounts := accs })

/-- `get_affected_account_ids`, iterating the transactions in order; an
L1-only variant is a panic (`none`).  The `HashSet` is modelled as an
order-preserving deduplicated list. -/
def dinsert (ids : List AccountID) (id : AccountID) : List AccountID :=
  if id ∈ ids then ids else ids ++ [id]

def affectedGo : List Transaction → List AccountID → Option (List AccountID)
  | [], ids => some ids
  | t :: ts, ids =>
    match t with
    | .Pay tx => affectedGo ts (dinsert (dinsert ids (pk_to_hash tx.sender)) (pk_to_hash tx.payload.toPk))
    | .DepositL2 tx => affectedGo ts (dinsert ids (pk_to_hash tx.sender))
    | .Withdrawal tx => affectedGo ts (dinsert ids (pk_to_hash tx.sender))
    | _ => none

def AccountBook.get_affected_account_ids (_b : AccountBook) (txns : List Transaction) :
    Option (List AccountID) :=
  affectedGo txns []

def AccountBook.update_tree (b : AccountBook) (changes : List (AccountID × Hash)) :
    AccountBook :=
  { b with proof_tree := b.proof_tree.insert_or_replace_batch changes }

/-- `get_partial`: `none` is the panic of `self.accounts.get(id).unwrap()` (or
of `get_affected_account_ids` on an L1-only variant). -/
def AccountBook.get_partial (b : AccountBook) (txns : List Transaction) :
    Option AccountBook := do
  let ids ← b.get_affected_account_ids txns
  let accounts ← ids.foldlM (fun acc id => do
      let a ← alookup id b.accounts
      some (sinsert id a acc)) ([] : List (AccountID × Account))
  some { proof_tree := b.proof_tree.get_partial ids, accounts := accounts }

def AccountBook.verify_partial_root (b : AccountBook) : Bool :=
  (b.accounts.all fun kv =>
    match b.proof_tree.get kv.1 with
    | none => false
    | some h => h == kv.2.hash) &&
  b.proof_tree.verify_partial

/-! Engine input container and the two engines. -/

structure EngineData where
  parent : Hash
  account_book : AccountBook
  txns : List Transaction
  sqn : Nat
deriving DecidableEq, Repr

def EngineData.new (faucet_key faucet_amout : Nat) : EngineData :=
  { parent := zeroHash, account_book := AccountBook.new faucet_key faucet_amout,
    txns := [], sqn := 0 }

/-- `EngineData::update`; the `u32` sequence bump is checked. -/
def EngineData.update (d : EngineData) (parent : Hash) : Option EngineData := do
  let s ← add32 d.sqn 1
  some { d with txns := [], sqn := s, parent := parent }

/-- Fold one transaction's change-set into the dedup map
(`to_update.insert(k, v)`, later writes win). -/
def dedupFold (m : List (AccountID × Hash)) (updates : List (AccountID × Hash)) :
    List (AccountID × Hash) :=
  updates.foldl (fun m kv => sinsert kv.1 kv.2 m) m

structure L2St where
  book : AccountBook
  upd : List (AccountID × Hash)
  wrecs : List WithdrawalRecord
  msgs : List Hash
deriving DecidableEq, Repr

def l2Step (st : L2St) (t : Transaction) : Option (Except (Tag × AccountBook) L2St) :=
  match t with
  | .Pay tx => do
    let (r, b) ← st.book.process_payment tx
    match r with
    | .error e => some (.error (e, b))
    | .ok updates => some (.ok { st with book := b, upd := dedupFold st.upd updates })
  | .DepositL2 tx => do
    let (r, b) ← st.book.process_deposit_l2 tx
    match r with
    | .error e => some (.error (e, b))
    | .ok updates =>
      some (.ok { st with book := b, upd := dedupFold st.upd updates,
                          msgs := st.msgs ++ [tx.id] })
  | .Withdrawal tx => do
    let (r, b, w) ← st.book.process_withdrawal tx st.wrecs
    match r with
    | .error e => some (.error (e, b))
    | .ok updates => some (.ok { st with book := b, upd := dedupFold st.upd updates,
                                         wrecs := w })
  | _ => some (.error ("tx type", st.book))

def l2Loop : List Transaction → L2St → Option (Except (Tag × AccountBook) L2St)
  | [], st => some (.ok st)
  | t :: ts, st => do
    let r ← l2Step st t
    match r with
    | .error e => some (.error e)
    | .ok st => l2Loop ts st

/-- `l2_engine::process`, with the unspecified iteration order of the dedup
`HashMap` exposed as the reordering `rho` applied to its entries. -/
def l2_process_ord (rho : List (AccountID × Hash) → List (AccountID × Hash))
    (d : EngineData) : Option (Except Tag BlockHeaderL2 × EngineData) :=
  let txns_hash := tx_set_hash d.txns
  match l2Loop d.txns { book := d.account_book, upd := [], wrecs := [], msgs := [] } with
  | none => none
  | some (.error (e, b)) => some (.error e, { d with account_book := b })
  | some (.ok st) => do
    let book := st.book.update_tree (rho st.upd)
    let x := sha (st.msgs.map HD.hsh)
    let header : BlockHeaderL2 :=
      { parent := d.parent, state_root := book.root, sqn := d.sqn, txns_hash := txns_hash,
        inbox_msg_hash := x, inbox_msg_count := st.msgs.length % U32LIM,
        withdrawals := st.wrecs }
    let d ← EngineData.update { d with account_book := book } header.hash
    some (.ok header, d)

def l2_process (d : EngineData) : Option (Except Tag BlockHeaderL2 × EngineData) :=
  l2_process_ord id d

structure L1St where
  book : AccountBook
  upd : List (AccountID × Hash)
  deposits : List (Tx L1ToL2Deposit)
deriving DecidableEq, Repr

def l1Step (valid_receipt : List Nat → Except Tag BlockHeaderL2) (st : L1St)
    (t : Transaction) : Option (Except (Tag × AccountBook) L1St) :=
  match t with
  | .Pay tx => do
    let (r, b) ← st.book.process_payment tx
    match r with
    | .error e => some (.error (e, b))
    | .ok updates => some (.ok { st with book := b, upd := dedupFold st.upd updates })
  | .Deposit tx => do
    let (r, b) ← st.book.process_deposit_l1 tx
    match r with
    | .error e => some (.error (e, b))
    | .ok updates => some (.ok { st with book := b, upd := dedupFold st.upd updates,
                                         deposits := st.deposits ++ [tx] })
  | .RollupCreate tx => do
    let (r, b) ← st.book.process_create_rollup_account tx
    match r with
    | .error e => some (.error (e, b))
    | .ok updates => some (.ok { st with book := b, upd := dedupFold st.upd updates })
  | .RollupUpdate tx => do
    let (r, b) ← st.book.process_rollup_state_update tx valid_receipt
    match r with
    | .error e => some (.error (e, b))
    | .ok updates => some (.ok { st with book := b, upd := dedupFold st.upd updates })
  | _ => some (.error ("tx type", st.book))

def l1Loop (valid_receipt : List Nat → Except Tag BlockHeaderL2) :
    List Transaction → L1St → Option (Except (Tag × AccountBook) L1St)
  | [], st => some (.ok st)
  | t :: ts, st => do
    let r ← l1Step valid_receipt st t
    match r with
    | .error e => some (.error e)
    | .ok st => l1Loop valid_receipt ts st

/-- `l1_engine::process` with the dedup iteration order exposed as `rho`. -/
def l1_process_ord (rho : List (AccountID × Hash) → List (AccountID × Hash))
    (d : EngineData) (valid_receipt : List Nat → Except Tag BlockHeaderL2) :
    Option (Except Tag BlockHeaderL1 × EngineData) :=
  let txns_hash := tx_set_hash d.txns
  match l1Loop valid_receipt d.txns { book := d.account_book, upd := [], deposits := [] } with
  | none => none
  | some (.error (e, b)) => some (.error e, { d with account_book := b })
  | some (.ok st) => do
    let book := st.book.update_tree (rho st.upd)
    let header : BlockHeaderL1 :=
      { parent := d.parent, state_root := book.root, sqn := d.sqn, txns_hash := txns_hash,
        events := st.deposits }
    let d ← EngineData.update { d with account_book := book } header.hash
    some (.ok header, d)

def l1_process (d : EngineData) (valid_receipt : List Nat → Except Tag BlockHeaderL2) :
    Option (Except Tag BlockHeaderL1 × EngineData) :=
  l1_process_ord id d valid_receipt

/-! Concrete states and transactions used to exercise the operations.
Keys: 0 = faucet, 1 = rollup account, 2/3/9 = plain users. -/

/-- Commit a successful change-set to the trie, as the engines do. -/
def commitRet : BookRet → Option AccountBook
  | some (.ok ch, b) => some (b.update_tree ch)
  | _ => none

def ogetB (x : Option AccountBook) : AccountBook := x.getD (AccountBook.new 0 0)

def rb0 : AccountBook := AccountBook.new 0 100

def txCr : Tx CreateRollupAccount := Tx.new 0 0 { rollup_pk := 1 } 0

/-- After creating the rollup account and committing. -/
def rb1 : AccountBook := ogetB (commitRet (rb0.process_create_rollup_account txCr))

def txDep : Tx L1ToL2Deposit := Tx.new 0 1 { rollup_pk := 1, amount := 5 } 0

/-- After depositing 5 into the rollup account and committing: the rollup
account holds 5 and its inbox holds one message. -/
def rb2 : AccountBook := ogetB (commitRet (rb1.process_deposit_l1 txDep))

def txUp1 : Tx RollupStateUpdate := Tx.new 1 0 { proof_receipt := [] } 1

/-- An adversarial receipt header claiming one inbox message while the rollup
inbox is empty. -/
def hdrC1 : BlockHeaderL2 :=
  { parent := zeroHash, state_root := zeroHash, sqn := 0, txns_hash := zeroHash,
    inbox_msg_hash := zeroHash, inbox_msg_count := 1, withdrawals := [] }

def c1run : BookRet := rb1.process_rollup_state_update txUp1 (fun _ => .ok hdrC1)

/-- A receipt header carrying one withdrawal of 5 to the fresh key 9. -/
def hdrC2 : BlockHeaderL2 :=
  { parent := zeroHash, state_root := zeroHash, sqn := 0, txns_hash := zeroHash,
    inbox_msg_hash := sha [], inbox_msg_count := 0,
    withdrawals := [{ toPk := 9, amount := 5 }] }

def c2run : BookRet := rb2.process_rollup_state_update txUp1 (fun _ => .ok hdrC2)

/-- The keys of a successful change-set. -/
def chgKeys : BookRet → Option (List AccountID)
  | some (.ok ch, _) => some (ch.map Prod.fst)
  | _ => none

def c3book : AccountBook := ogetB (commitRet c2run)

def payTo2 : Tx Payment := Tx.new 0 0 { toPk := 2, amount := 5 } 0

def payBad : Tx Payment := Tx.new 0 7 { toPk := 2, amount := 5 } 0

def c4d : EngineData :=
  { parent := zeroHash, account_book := AccountBook.new 0 100,
    txns := [.Pay payTo2, .Pay payBad], sqn := 0 }

def c4run : Option (Except Tag BlockHeaderL2 × EngineData) := l2_process c4d

def c5b : AccountBook := AccountBook.new 0 100

/-- A self-payment: destination key equals the sender key. -/
def c5self : Tx Payment := Tx.new 0 0 { toPk := 0, amount := 5 } 0

def c5run : BookRet := c5b.process_payment c5self

def c6tx : Tx Payment := Tx.new 0 7 { toPk := 3, amount := 5 } 0

def wDep : Tx L1ToL2Deposit := Tx.new 0 0 { rollup_pk := 1, amount := 5 } 0

def wWdr : Tx L2ToL1Withdrawal := Tx.new 0 0 { amount := 3 } 0

def c7d : EngineData :=
  { parent := zeroHash, account_book := AccountBook.new 0 0,
    txns := [.DepositL2 wDep, .Withdrawal wWdr], sqn := 0 }

def c7run : Option (Except Tag BlockHeaderL2 × EngineData) := l2_process c7d

def hA : BlockHeaderL1 :=
  { parent := zeroHash, state_root := zeroHash, sqn := 0, txns_hash := zeroHash,
    events := [] }

def hB : BlockHeaderL1 :=
  { parent := zeroHash, state_root := zeroHash, sqn := 0, txns_hash := zeroHash,
    events := [wDep] }

deriving instance DecidableEq for Except

/-! Derived notions used by the statements. -/

/-- Sum of all balances in the book. -/
def totalBalance (b : AccountBook) : Nat :=
  (b.accounts.map fun kv => kv.2.amount).sum

/-- Strict key-sortedness (executable), the representation invariant of the
`BTreeMap` model (and of the dedup map). -/
def kchainB : List (Hash × α) → Bool
  | [] => true
  | [_] => true
  | a :: b :: t => keyLt a.1 b.1 && kchainB (b :: t)

abbrev KChain (l : List (Hash × α)) : Prop := kchainB l = true

/-- The variants admitted by the L2 engine. -/
def isL2Tx : Transaction → Bool
  | .Pay _ => true
  | .DepositL2 _ => true
  | .Withdrawal _ => true
  | _ => false

/-- Envelope ids of the `DepositL2` transactions, in submission order. -/
def depositIds (txns : List Transaction) : List Hash :=
  txns.filterMap fun t =>
    match t with
    | .DepositL2 tx => some tx.id
    | _ => none

/-- The withdrawal records produced by the `Withdrawal` transactions, in
submission order. -/
def withdrawalRecords (txns : List Transaction) : List WithdrawalRecord :=
  txns.filterMap fun t =>
    match t with
    | .Withdrawal tx => some { toPk := tx.sender, amount := tx.payload.amount }
    | _ => none

/-- Statement pattern for the mutating book operations: a panic aside, the
trie is never touched, and an error return leaves the book exactly as given. -/
def errUnchanged (b : AccountBook)
    (o : Option (Except Tag (List (AccountID × Hash)) × AccountBook)) : Prop :=
  match o with
  | none => True
  | some (r, b2) => b2.proof_tree = b.proof_tree ∧ ∀ e, r = Except.error e → b2 = b

/-- The same pattern for `process_withdrawal`, whose result also carries the
record list. -/
def errUnchangedW (b : AccountBook) (w : List WithdrawalRecord)
    (o : Option (Except Tag (List (AccountID × Hash)) × AccountBook × List WithdrawalRecord)) :
    Prop :=
  match o with
  | none => True
  | some (r, b2, w2) =>
    b2.proof_tree = b.proof_tree ∧ ∀ e, r = Except.error e → (b2 = b ∧ w2 = w)

/-- The trie under a step/loop outcome equals the given one. -/
def treePresL2 (base : PartialMerkleTrie) : Except (Tag × AccountBook) L2St → Prop
  | .ok st2 => st2.book.proof_tree = base
  | .error p => p.2.proof_tree = base

def treePresL1 (base : PartialMerkleTrie) : Except (Tag × AccountBook) L1St → Prop
  | .ok st2 => st2.book.proof_tree = base
  | .error p => p.2.proof_tree = base

/-- The engine state left behind by the failing block of `c4d`. -/
def c4d2 : EngineData := (c4run.map Prod.snd).getD (EngineData.new 0 0)

/-- Sum of the balances of an account list. -/
def sumAmt (l : List (AccountID × Account)) : Nat :=
  (l.map fun kv => kv.2.amount).sum

/-- The header produced by the concrete L2 block `c7d`. -/
def c7hdr : BlockHeaderL2 :=
  (c7run.bind fun p =>
    match p.1 with
    | .ok h => some h
    | .error _ => none).getD
    { parent := zeroHash, state_root := zeroHash, sqn := 0, txns_hash := zeroHash,
      inbox_msg_hash := zeroHash, inbox_msg_count := 0, withdrawals := [] }

/-- The engine state left behind by the concrete L2 block `c7d`. -/
def c7d2 : EngineData := (c7run.map Prod.snd).getD (EngineData.new 0 0)

/-- Change-set of a successful operation (empty on error or panic). -/
def outOf : BookRet → List (AccountID × Hash)
  | some (.ok l, _) => l
  | _ => []

/-- The book carried in an operation's result. -/
def bookOf : BookRet → AccountBook
  | some (_, b) => b
  | none => AccountBook.new 0 0

/-! Order lemmas for the key order. -/

theorem blt_self_false (x : Nat) : x.blt x = false := by
  cases h : x.blt x
  · rfl
  · rw [Nat.blt_eq] at h
    exact absurd h (Nat.lt_irrefl x)

theorem keyLt_cons_iff (x y : Nat) (xs ys : List Nat) :
    keyLt (x :: xs) (y :: ys) = true ↔ (x < y ∨ (x = y ∧ keyLt xs ys = true)) := by
  simp [keyLt, Nat.blt_eq, Nat.beq_eq]

theorem keyLt_false_iff (a b : List Nat) : keyLt a b = false ↔ ¬ (keyLt a b = true) := by
  cases h : keyLt a b <;> simp

theorem keyLt_irrefl (a : List Nat) : keyLt a a = false := by
  induction a with
  | nil => rfl
  | cons x xs ih => simp [keyLt, ih, blt_self_false]

theorem keyLt_trans {a b c : List Nat} (h1 : keyLt a b = true) (h2 : keyLt b c = true) :
    keyLt a c = true := by
  induction a generalizing b c with
  | nil =>
    cases b with
    | nil => simp [keyLt] at h1
    | cons y ys =>
      cases c with
      | nil => simp [keyLt] at h2
      | cons z zs => simp [keyLt]
  | cons x xs ih =>
    cases b with
    | nil => simp [keyLt] at h1
    | cons y ys =>
      cases c with
      | nil => simp [keyLt] at h2
      | cons z zs =>
        rw [keyLt_cons_iff] at h1 h2 ⊢
        rcases h1 with h1 | ⟨rfl, h1⟩
        · rcases h2 with h2 | ⟨rfl, h2⟩
          · exact Or.inl (Nat.lt_trans h1 h2)
          · exact Or.inl h1
        · rcases h2 with h2 | ⟨rfl, h2⟩
          · exact Or.inl h2
          · exact Or.inr ⟨rfl, ih h1 h2⟩

theorem keyLt_conn {a b : List Nat} (h1 : keyLt a b = false) (h2 : keyLt b a = false) :
    a = b := by
  induction a generalizing b with
  | nil =>
    cases b with
    | nil => rfl
    | cons y ys => simp [keyLt] at h1
  | cons x xs ih =>
    cases b with
    | nil => simp [keyLt] at h2
    | cons y ys =>
      rw [keyLt_false_iff, keyLt_cons_iff] at h1 h2
      push_neg at h1 h2
      obtain ⟨h1a, h1b⟩ := h1
      obtain ⟨h2a, h2b⟩ := h2
      have hxy : x = y := by omega
      subst hxy
      have e1 : keyLt xs ys = false := by
        have hne := h1b rfl
        cases hv : keyLt xs ys
        · rfl
        · exact absurd hv hne
      have e2 : keyLt ys xs = false := by
        have hne := h2b rfl
        cases hv : keyLt ys xs
        · rfl
        · exact absurd hv hne
      rw [ih e1 e2]

theorem keyLt_asymm {a b : List Nat} (h : keyLt a b = true) : keyLt b a = false := by
  cases hv : keyLt b a
  · rfl
  · have := keyLt_trans h hv
    rw [keyLt_irrefl] at this
    exact absurd this Bool.false_ne_true

/-! Insert-or-replace on the sorted association list: two inserts with
distinct keys commute. -/

theorem keyLt_ne {k1 k2 : Hash} (h12 : keyLt k1 k2 = true) : k1 ≠ k2 := by
  intro e
  rw [e, keyLt_irrefl] at h12
  exact absurd h12 Bool.false_ne_true

theorem keyLt_of_not_lt {k1 k2 : Hash} (h : keyLt k1 k2 = false) (e : k1 ≠ k2) :
    keyLt k2 k1 = true := by
  cases hv : keyLt k2 k1
  · exact absurd (keyLt_conn h hv) e
  · rfl

theorem sinsert_comm_lt {α : Type} (v1 v2 : α) {k1 k2 : Hash}
    (h12 : keyLt k1 k2 = true) (l : List (Hash × α)) :
    sinsert k2 v2 (sinsert k1 v1 l) = sinsert k1 v1 (sinsert k2 v2 l) := by
  have h21 : keyLt k2 k1 = false := keyLt_asymm h12
  have hne : k1 ≠ k2 := keyLt_ne h12
  have hne21 : k2 ≠ k1 := fun e => hne e.symm
  induction l with
  | nil => simp [sinsert, h12, h21, hne, hne21]
  | cons p t ih =>
    obtain ⟨ka, va⟩ := p
    cases h1a : keyLt k1 ka
    · by_cases e1 : k1 = ka
      · subst e1
        cases h2a : keyLt k2 k1
        · by_cases e2 : k2 = k1
          · exact absurd e2 hne21
          · simp [sinsert, h2a, e2, h21, hne21, keyLt_irrefl]
        · simp [h21] at h2a
      · have hak1 : keyLt ka k1 = true := keyLt_of_not_lt h1a e1
        cases h2a : keyLt k2 ka
        · by_cases e2 : k2 = ka
          · subst e2
            simp [h12] at h1a
          · simp [sinsert, h1a, h2a, e1, e2, ih]
        · have : keyLt k2 k1 = true := keyLt_trans h2a hak1
          simp [this] at h21
    · cases h2a : keyLt k2 ka
      · by_cases e2 : k2 = ka
        · subst e2
          simp [sinsert, h12, h21, hne21, keyLt_irrefl, h1a]
        · have h21k : keyLt k2 k1 = false := h21
          simp [sinsert, h1a, h2a, e2, h21, hne21]
      · simp [sinsert, h1a, h2a, h12, h21, hne21]

theorem sinsert_comm {α : Type} (v1 v2 : α) {k1 k2 : Hash} (h : k1 ≠ k2)
    (l : List (Hash × α)) :
    sinsert k2 v2 (sinsert k1 v1 l) = sinsert k1 v1 (sinsert k2 v2 l) := by
  cases h12 : keyLt k1 k2
  · have h21 : keyLt k2 k1 = true := keyLt_of_not_lt h12 h
    exact (sinsert_comm_lt v2 v1 h21 l).symm
  · exact sinsert_comm_lt v1 v2 h12 l

/-! Sorted association lists: sortedness is preserved, keys stay distinct,
and lookups after insert behave as on a map. -/

theorem KChain_nil {α : Type} : KChain ([] : List (Hash × α)) := rfl

theorem KChain_cons_iff {α : Type} (p q : Hash × α) (t : List (Hash × α)) :
    KChain (p :: q :: t) ↔ (keyLt p.1 q.1 = true ∧ KChain (q :: t)) := by
  simp [KChain, kchainB]

theorem KChain_tail {α : Type} {p : Hash × α} {t : List (Hash × α)}
    (h : KChain (p :: t)) : KChain t := by
  cases t with
  | nil => rfl
  | cons q t => exact ((KChain_cons_iff p q t).mp h).2

theorem KChain_all_gt {α : Type} {p : Hash × α} {t : List (Hash × α)}
    (h : KChain (p :: t)) : ∀ q ∈ t, keyLt p.1 q.1 = true := by
  induction t generalizing p with
  | nil => intro q hq; cases hq
  | cons q t ih =>
    intro r hr
    have h1 := ((KChain_cons_iff p q t).mp h).1
    have h2 := ((KChain_cons_iff p q t).mp h).2
    rcases List.mem_cons.mp hr with hr | hr
    · subst hr
      exact h1
    · exact keyLt_trans h1 (ih h2 r hr)

theorem alookup_none_of_lt {α : Type} {k : Hash} {l : List (Hash × α)}
    (h : ∀ q ∈ l, keyLt k q.1 = true) : alookup k l = none := by
  induction l with
  | nil => rfl
  | cons p t ih =>
    have hk : k ≠ p.1 := keyLt_ne (h p (by simp))
    simp only [alookup]
    rw [if_neg hk]
    exact ih (fun q hq => h q (by simp [hq]))

theorem alookup_sinsert_self {α : Type} (k : Hash) (v : α) (l : List (Hash × α)) :
    alookup k (sinsert k v l) = some v := by
  induction l with
  | nil => simp [sinsert, alookup]
  | cons p t ih =>
    obtain ⟨k1, v1⟩ := p
    by_cases hlt : keyLt k k1 = true
    · simp [sinsert, hlt, alookup]
    · by_cases he : k = k1
      · subst he
        simp [sinsert, keyLt_irrefl, alookup]
      · simp [sinsert, hlt, he, alookup, ih]

theorem alookup_sinsert_ne {α : Type} {k q : Hash} (hne : q ≠ k) (v : α)
    (l : List (Hash × α)) : alookup q (sinsert k v l) = alookup q l := by
  induction l with
  | nil => simp [sinsert, alookup, hne]
  | cons p t ih =>
    obtain ⟨k1, v1⟩ := p
    by_cases hlt : keyLt k k1 = true
    · simp [sinsert, hlt, alookup, hne]
    · by_cases he : k = k1
      · subst he
        simp [sinsert, hlt, alookup, hne]
      · simp [sinsert, hlt, he, alookup, ih]

theorem KChain_sinsert {α : Type} (k : Hash) (v : α) {l : List (Hash × α)}
    (h : KChain l) : KChain (sinsert k v l) := by
  induction l with
  | nil => rfl
  | cons p t ih =>
    obtain ⟨k1, v1⟩ := p
    by_cases hlt : keyLt k k1 = true
    · have hres : KChain ((k, v) :: (k1, v1) :: t) :=
        (KChain_cons_iff (k, v) (k1, v1) t).mpr ⟨hlt, h⟩
      simpa [sinsert, hlt] using hres
    · by_cases he : k = k1
      · subst he
        have hres : KChain ((k, v) :: t) := by
          cases t with
          | nil => rfl
          | cons q t2 =>
            exact (KChain_cons_iff (k, v) q t2).mpr
              ⟨((KChain_cons_iff (k, v1) q t2).mp h).1,
               ((KChain_cons_iff (k, v1) q t2).mp h).2⟩
        simpa [sinsert, hlt] using hres
      · have hgt : keyLt k1 k = true := by
          cases hv : keyLt k k1
          · exact keyLt_of_not_lt hv he
          · exact absurd hv hlt
        have htail := ih (KChain_tail h)
        have hres : KChain ((k1, v1) :: sinsert k v t) := by
          cases t with
          | nil =>
            simp only [sinsert]
            simpa [KChain, kchainB] using hgt
          | cons q t2 =>
            obtain ⟨kq, vq⟩ := q
            by_cases hlt2 : keyLt k kq = true
            · rw [show sinsert k v ((kq, vq) :: t2) = (k, v) :: (kq, vq) :: t2 by
                 simp [sinsert, hlt2]]
              exact (KChain_cons_iff (k1, v1) (k, v) ((kq, vq) :: t2)).mpr
                ⟨hgt, by simpa [sinsert, hlt2] using htail⟩
            · by_cases he2 : k = kq
              · subst he2
                rw [show sinsert k v ((k, vq) :: t2) = (k, v) :: t2 by
                   simp [sinsert, hlt2]]
                refine (KChain_cons_iff (k1, v1) (k, v) t2).mpr ⟨hgt, ?_⟩
                simpa [sinsert, hlt2] using htail
              · rw [show sinsert k v ((kq, vq) :: t2) = (kq, vq) :: sinsert k v t2 by
                   simp [sinsert, hlt2, he2]]
                refine (KChain_cons_iff (k1, v1) (kq, vq) (sinsert k v t2)).mpr
                  ⟨((KChain_cons_iff (k1, v1) (kq, vq) t2).mp h).1, ?_⟩
                simpa [sinsert, hlt2, he2] using htail
        simpa [sinsert, hlt, he] using hres

theorem KChain_keys_nodup {α : Type} {l : List (Hash × α)} (h : KChain l) :
    (l.map Prod.fst).Nodup := by
  induction l with
  | nil => simp
  | cons p t ih =>
    simp only [List.map_cons, List.nodup_cons]
    refine ⟨?_, ih (KChain_tail h)⟩
    intro hmem
    obtain ⟨q, hq, he⟩ := List.mem_map.mp hmem
    have hgt := KChain_all_gt h q hq
    rw [he, keyLt_irrefl] at hgt
    exact Bool.false_ne_true hgt

theorem foldl_sinsert_perm {α : Type} {l1 l2 : List (Hash × α)} (hp : l1.Perm l2)
    (hnd : (l1.map Prod.fst).Nodup) (base : List (Hash × α)) :
    l1.foldl (fun m kv => sinsert kv.1 kv.2 m) base =
    l2.foldl (fun m kv => sinsert kv.1 kv.2 m) base := by
  refine hp.foldl_eq' ?_ base
  intro x hx y hy z
  by_cases hxy : x = y
  · subst hxy
    rfl
  · have hk : x.1 ≠ y.1 := fun he => hxy (List.inj_on_of_nodup_map hnd hx hy he)
    exact sinsert_comm x.2 y.2 hk z

theorem batch_entries (t : PartialMerkleTrie) (kvs : List (Hash × Hash)) :
    (t.insert_or_replace_batch kvs).entries =
    kvs.foldl (fun es kv => sinsert kv.1 kv.2 es) t.entries := by
  induction kvs generalizing t with
  | nil => rfl
  | cons kv kvs ih =>
    simp only [PartialMerkleTrie.insert_or_replace_batch, List.foldl] at ih ⊢
    exact ih ⟨sinsert kv.1 kv.2 t.entries⟩

theorem trie_eq_of_entries {t1 t2 : PartialMerkleTrie} (h : t1.entries = t2.entries) :
    t1 = t2 := by
  cases t1
  cases t2
  simpa using h

/-- Committing a change-set with distinct keys is invariant under reordering. -/
theorem update_tree_perm (b : AccountBook) {l1 l2 : List (AccountID × Hash)}
    (hp : l1.Perm l2) (hnd : (l1.map Prod.fst).Nodup) :
    b.update_tree l1 = b.update_tree l2 := by
  simp only [AccountBook.update_tree]
  congr 1
  apply trie_eq_of_entries
  rw [batch_entries, batch_entries]
  exact foldl_sinsert_perm hp hnd b.proof_tree.entries

theorem KChain_dedupFold {m : List (AccountID × Hash)} (h : KChain m)
    (updates : List (AccountID × Hash)) : KChain (dedupFold m updates) := by
  induction updates generalizing m with
  | nil => exact h
  | cons u us ih =>
    simp only [dedupFold, List.foldl] at ih ⊢
    exact ih (KChain_sinsert u.1 u.2 h)

theorem l2Step_KChain {st st' : L2St} {t : Transaction}
    (hstep : l2Step st t = some (.ok st')) (h : KChain st.upd) : KChain st'.upd := by
  cases t with
  | Pay tx =>
    simp only [l2Step, Option.bind_eq_bind] at hstep
    cases hr : st.book.process_payment tx with
    | none => rw [hr] at hstep; cases hstep
    | some p =>
      rw [hr] at hstep
      obtain ⟨r, b⟩ := p
      cases r with
      | error e => simp at hstep
      | ok updates =>
        simp at hstep
        rw [← hstep]
        exact KChain_dedupFold h updates
  | DepositL2 tx =>
    simp only [l2Step, Option.bind_eq_bind] at hstep
    cases hr : st.book.process_deposit_l2 tx with
    | none => rw [hr] at hstep; cases hstep
    | some p =>
      rw [hr] at hstep
      obtain ⟨r, b⟩ := p
      cases r with
      | error e => simp at hstep
      | ok updates =>
        simp at hstep
        rw [← hstep]
        exact KChain_dedupFold h updates
  | Withdrawal tx =>
    simp only [l2Step, Option.bind_eq_bind] at hstep
    cases hr : st.book.process_withdrawal tx st.wrecs with
    | none => rw [hr] at hstep; cases hstep
    | some p =>
      rw [hr] at hstep
      obtain ⟨r, b, w⟩ := p
      cases r with
      | error e => simp at hstep
      | ok updates =>
        simp at hstep
        rw [← hstep]
        exact KChain_dedupFold h updates
  | Deposit tx => simp [l2Step] at hstep
  | RollupCreate tx => simp [l2Step] at hstep
  | RollupUpdate tx => simp [l2Step] at hstep

theorem l2Loop_KChain {ts : List Transaction} {st st' : L2St}
    (hloop : l2Loop ts st = some (.ok st')) (h : KChain st.upd) : KChain st'.upd := by
  induction ts generalizing st with
  | nil =>
    simp [l2Loop] at hloop
    rw [← hloop]
    exact h
  | cons t ts ih =>
    simp only [l2Loop, Option.bind_eq_bind] at hloop
    cases hs : l2Step st t with
    | none => rw [hs] at hloop; cases hloop
    | some r =>
      rw [hs] at hloop
      cases r with
      | error e => simp at hloop
      | ok st1 =>
        simp only [Option.some_bind] at hloop
        exact ih hloop (l2Step_KChain hs h)

theorem l1Step_KChain {cb : List Nat → Except Tag BlockHeaderL2} {st st' : L1St}
    {t : Transaction} (hstep : l1Step cb st t = some (.ok st')) (h : KChain st.upd) :
    KChain st'.upd := by
  cases t with
  | Pay tx =>
    simp only [l1Step, Option.bind_eq_bind] at hstep
    cases hr : st.book.process_payment tx with
    | none => rw [hr] at hstep; cases hstep
    | some p =>
      rw [hr] at hstep
      obtain ⟨r, b⟩ := p
      cases r with
      | error e => simp at hstep
      | ok updates =>
        simp at hstep
        rw [← hstep]
        exact KChain_dedupFold h updates
  | Deposit tx =>
    simp only [l1Step, Option.bind_eq_bind] at hstep
    cases hr : st.book.process_deposit_l1 tx with
    | none => rw [hr] at hstep; cases hstep
    | some p =>
      rw [hr] at hstep
      obtain ⟨r, b⟩ := p
      cases r with
      | error e => simp at hstep
      | ok updates =>
        simp at hstep
        rw [← hstep]
        exact KChain_dedupFold h updates
  | RollupCreate tx =>
    simp only [l1Step, Option.bind_eq_bind] at hstep
    cases hr : st.book.process_create_rollup_account tx with
    | none => rw [hr] at hstep; cases hstep
    | some p =>
      rw [hr] at hstep
      obtain ⟨r, b⟩ := p
      cases r with
      | error e => simp at hstep
      | ok updates =>
        simp at hstep
        rw [← hstep]
        exact KChain_dedupFold h updates
  | RollupUpdate tx =>
    simp only [l1Step, Option.bind_eq_bind] at hstep
    cases hr : st.book.process_rollup_state_update tx cb with
    | none => rw [hr] at hstep; cases hstep
    | some p =>
      rw [hr] at hstep
      obtain ⟨r, b⟩ := p
      cases r with
      | error e => simp at hstep
      | ok updates =>
        simp at hstep
        rw [← hstep]
        exact KChain_dedupFold h updates
  | DepositL2 tx => simp [l1Step] at hstep
  | Withdrawal tx => simp [l1Step] at hstep

theorem l1Loop_KChain {cb : List Nat → Except Tag BlockHeaderL2} {ts : List Transaction}
    {st st' : L1St} (hloop : l1Loop cb ts st = some (.ok st')) (h : KChain st.upd) :
    KChain st'.upd := by
  induction ts generalizing st with
  | nil =>
    simp [l1Loop] at hloop
    rw [← hloop]
    exact h
  | cons t ts ih =>
    simp only [l1Loop, Option.bind_eq_bind] at hloop
    cases hs : l1Step cb st t with
    | none => rw [hs] at hloop; cases hloop
    | some r =>
      rw [hs] at hloop
      cases r with
      | error e => simp at hloop
      | ok st1 =>
        simp only [Option.some_bind] at hloop
        exact ih hloop (l1Step_KChain hs h)

/-- C8: block production is a deterministic function of its inputs.  Running
either engine is a pure function (replaying the same transaction sequence on
the same genesis state yields the same header and root), and the result does
not depend on the iteration order of the dedup `HashMap`: for every reordering
`rho` of the committed change-set entries (the unspecified iteration order),
the L1 and the L2 engine produce identical results — identical headers, hence
identical trie roots — as with the canonical order. -/
theorem c8_block_production_deterministic
    (rho : List (AccountID × Hash) → List (AccountID × Hash))
    (hrho : ∀ l, (rho l).Perm l) :
    (∀ (d : EngineData) (cb : List Nat → Except Tag BlockHeaderL2),
        l1_process_ord rho d cb = l1_process_ord id d cb) ∧
    (∀ d : EngineData, l2_process_ord rho d = l2_process_ord id d) := by
  constructor
  · intro d cb
    simp only [l1_process_ord]
    cases hloop : l1Loop cb d.txns { book := d.account_book, upd := [], deposits := [] } with
    | none => rfl
    | some r =>
      cases r with
      | error e => rfl
      | ok st =>
        have hch : KChain st.upd := l1Loop_KChain hloop KChain_nil
        have hnd := KChain_keys_nodup hch
        have hnd2 : ((rho st.upd).map Prod.fst).Nodup :=
          (((hrho st.upd).map Prod.fst).nodup_iff).mpr hnd
        have hb : st.book.update_tree (rho st.upd) = st.book.update_tree st.upd :=
          update_tree_perm st.book (hrho st.upd) hnd2
        simp only [hb, id_eq]
  · intro d
    simp only [l2_process_ord]
    cases hloop : l2Loop d.txns { book := d.account_book, upd := [], wrecs := [], msgs := [] } with
    | none => rfl
    | some r =>
      cases r with
      | error e => rfl
      | ok st =>
        have hch : KChain st.upd := l2Loop_KChain hloop KChain_nil
        have hnd := KChain_keys_nodup hch
        have hnd2 : ((rho st.upd).map Prod.fst).Nodup :=
          (((hrho st.upd).map Prod.fst).nodup_iff).mpr hnd
        have hb : st.book.update_tree (rho st.upd) = st.book.update_tree st.upd :=
          update_tree_perm st.book (hrho st.upd) hnd2
        simp only [hb, id_eq]

/-- Witness for C8 at a concrete engine state: committing the dedup entries in
reversed order produces the same result as the canonical order. -/
theorem c8_block_production_deterministic_witness :
    l2_process_ord List.reverse c7d = l2_process_ord id c7d :=
  (c8_block_production_deterministic List.reverse (fun l => List.reverse_perm l)).2 c7d

/-! Each book operation never touches the trie and leaves the book unchanged
whenever it returns an error tag. -/

theorem payment_errUnchanged (b : AccountBook) (tx : Tx Payment) :
    errUnchanged b (b.process_payment tx) := by
  unfold AccountBook.process_payment
  cases hsc : b.sender_check tx with
  | error e => simp [errUnchanged]
  | ok id_sender =>
    simp only [Option.bind_eq_bind]
    cases hl : alookup id_sender b.accounts with
    | none => simp [errUnchanged, hl]
    | some a =>
      cases hs : sub128 a.amount tx.payload.amount with
      | none => simp [errUnchanged, hl, hs]
      | some amt =>
        cases ha : add32 a.sqn_expect 1 with
        | none => simp [errUnchanged, hl, hs, ha]
        | some sq =>
          simp only [hl, hs, ha, Option.some_bind]
          split
          · simp [errUnchanged]
          · next a_to heq =>
            cases h2 : add128 a_to.amount tx.payload.amount with
            | none => simp [errUnchanged, h2]
            | some amt2 => simp [errUnchanged, h2]

theorem errUnchanged_bind {b : AccountBook} {X : Type} {o : Option X}
    {f : X → Option (Except Tag (List (AccountID × Hash)) × AccountBook)}
    (h : ∀ x, errUnchanged b (f x)) : errUnchanged b (o.bind f) := by
  cases o with
  | none => simp [errUnchanged]
  | some x => simpa using h x

theorem errUnchangedW_bind {b : AccountBook} {w : List WithdrawalRecord} {X : Type}
    {o : Option X}
    {f : X → Option (Except Tag (List (AccountID × Hash)) × AccountBook × List WithdrawalRecord)}
    (h : ∀ x, errUnchangedW b w (f x)) : errUnchangedW b w (o.bind f) := by
  cases o with
  | none => simp [errUnchangedW]
  | some x => simpa using h x

theorem create_errUnchanged (b : AccountBook) (tx : Tx CreateRollupAccount) :
    errUnchanged b (b.process_create_rollup_account tx) := by
  unfold AccountBook.process_create_rollup_account
  cases hsc : b.sender_check tx with
  | error e => simp [errUnchanged]
  | ok id_sender =>
    cases hl0 : alookup (pk_to_hash tx.payload.rollup_pk) b.accounts with
    | some a0 => simp [errUnchanged, hl0]
    | none =>
      simp only [hl0, Option.bind_eq_bind]
      apply errUnchanged_bind
      intro a
      apply errUnchanged_bind
      intro sq
      simp [errUnchanged]

theorem deposit_l1_errUnchanged (b : AccountBook) (tx : Tx L1ToL2Deposit) :
    errUnchanged b (b.process_deposit_l1 tx) := by
  unfold AccountBook.process_deposit_l1
  cases hsc : b.sender_check tx with
  | error e => simp [errUnchanged]
  | ok id_sender =>
    cases hl0 : alookup (pk_to_hash tx.payload.rollup_pk) b.accounts with
    | none => simp [errUnchanged, hl0]
    | some a_to =>
      cases hru : a_to.rollup with
      | none => simp [errUnchanged, hl0, hru]
      | some rs =>
        simp only [hl0, hru, Option.bind_eq_bind]
        apply errUnchanged_bind
        intro amt
        apply errUnchanged_bind
        intro a_sender
        apply errUnchanged_bind
        intro amt2
        apply errUnchanged_bind
        intro sq
        simp [errUnchanged]

theorem deposit_l2_errUnchanged (b : AccountBook) (tx : Tx L1ToL2Deposit) :
    errUnchanged b (b.process_deposit_l2 tx) := by
  unfold AccountBook.process_deposit_l2
  cases hl0 : alookup (pk_to_hash tx.sender) b.accounts with
  | none => simp [errUnchanged, hl0]
  | some a_to =>
    simp only [hl0, Option.bind_eq_bind]
    apply errUnchanged_bind
    intro amt
    simp [errUnchanged]

theorem withdrawal_errUnchanged (b : AccountBook) (tx : Tx L2ToL1Withdrawal)
    (w : List WithdrawalRecord) : errUnchangedW b w (b.process_withdrawal tx w) := by
  unfold AccountBook.process_withdrawal
  cases hsc : b.sender_check tx with
  | error e => simp [errUnchangedW]
  | ok id_sender =>
    simp only [Option.bind_eq_bind]
    apply errUnchangedW_bind
    intro a
    apply errUnchangedW_bind
    intro amt
    apply errUnchangedW_bind
    intro sq
    simp [errUnchangedW]

theorem rollup_update_errUnchanged (b : AccountBook) (tx : Tx RollupStateUpdate)
    (cb : List Nat → Except Tag BlockHeaderL2) :
    errUnchanged b (b.process_rollup_state_update tx cb) := by
  unfold AccountBook.process_rollup_state_update
  cases hsc : b.sender_check tx with
  | error e => simp [errUnchanged]
  | ok id_sender =>
    cases hr : cb tx.payload.proof_receipt with
    | error e => simp [errUnchanged, hr]
    | ok header =>
      simp only [hr, Option.bind_eq_bind]
      apply errUnchanged_bind
      intro a_sender
      cases hru : a_sender.rollup with
      | none => simp [errUnchanged]
      | some rollup =>
        dsimp only
        by_cases hp : header.parent ≠ rollup.header_hash
        · simp [errUnchanged, hp]
        · rw [if_neg hp]
          by_cases hq : header.sqn ≠ rollup.sqn
          · simp [errUnchanged, hq]
          · rw [if_neg hq]
            apply errUnchanged_bind
            intro msgs
            by_cases hx : sha (List.map HD.hsh msgs) ≠ header.inbox_msg_hash
            · simp [errUnchanged, hx]
            · rw [if_neg hx]
              apply errUnchanged_bind
              intro ws
              by_cases hw : a_sender.amount < ws
              · simp [errUnchanged, hw]
              · rw [if_neg hw]
                apply errUnchanged_bind
                intro rsq
                apply errUnchanged_bind
                intro amt
                apply errUnchanged_bind
                intro sq
                apply errUnchanged_bind
                intro accs2
                simp [errUnchanged]

theorem l2Step_tree {st : L2St} {t : Transaction} {r : Except (Tag × AccountBook) L2St}
    (hstep : l2Step st t = some r) : treePresL2 st.book.proof_tree r := by
  cases t with
  | Pay tx =>
    have hu := payment_errUnchanged st.book tx
    simp only [l2Step, Option.bind_eq_bind] at hstep
    cases hr : st.book.process_payment tx with
    | none => rw [hr] at hstep; cases hstep
    | some p =>
      rw [hr] at hstep
      rw [hr] at hu
      obtain ⟨r0, b⟩ := p
      cases r0 with
      | error e =>
        simp at hstep
        subst hstep
        exact hu.1
      | ok updates =>
        simp at hstep
        subst hstep
        exact hu.1
  | DepositL2 tx =>
    have hu := deposit_l2_errUnchanged st.book tx
    simp only [l2Step, Option.bind_eq_bind] at hstep
    cases hr : st.book.process_deposit_l2 tx with
    | none => rw [hr] at hstep; cases hstep
    | some p =>
      rw [hr] at hstep
      rw [hr] at hu
      obtain ⟨r0, b⟩ := p
      cases r0 with
      | error e =>
        simp at hstep
        subst hstep
        exact hu.1
      | ok updates =>
        simp at hstep
        subst hstep
        exact hu.1
  | Withdrawal tx =>
    have hu := withdrawal_errUnchanged st.book tx st.wrecs
    simp only [l2Step, Option.bind_eq_bind] at hstep
    cases hr : st.book.process_withdrawal tx st.wrecs with
    | none => rw [hr] at hstep; cases hstep
    | some p =>
      rw [hr] at hstep
      rw [hr] at hu
      obtain ⟨r0, b, w⟩ := p
      cases r0 with
      | error e =>
        simp at hstep
        subst hstep
        exact hu.1
      | ok updates =>
        simp at hstep
        subst hstep
        exact hu.1
  | Deposit tx =>
    simp [l2Step] at hstep
    subst hstep
    rfl
  | RollupCreate tx =>
    simp [l2Step] at hstep
    subst hstep
    rfl
  | RollupUpdate tx =>
    simp [l2Step] at hstep
    subst hstep
    rfl

theorem l2Loop_tree {ts : List Transaction} {st : L2St}
    {r : Except (Tag × AccountBook) L2St} (hloop : l2Loop ts st = some r) :
    treePresL2 st.book.proof_tree r := by
  induction ts generalizing st with
  | nil =>
    simp [l2Loop] at hloop
    subst hloop
    rfl
  | cons t ts ih =>
    simp only [l2Loop, Option.bind_eq_bind] at hloop
    cases hs : l2Step st t with
    | none => rw [hs] at hloop; cases hloop
    | some r1 =>
      rw [hs] at hloop
      cases r1 with
      | error e =>
        simp at hloop
        subst hloop
        exact l2Step_tree hs
      | ok st1 =>
        simp only [Option.some_bind] at hloop
        have h1 : st1.book.proof_tree = st.book.proof_tree := l2Step_tree hs
        have h2 := ih hloop
        cases r with
        | ok st2 =>
          simp only [treePresL2] at h2 ⊢
          exact h2.trans h1
        | error p =>
          simp only [treePresL2] at h2 ⊢
          exact h2.trans h1

theorem l1Step_tree {cb : List Nat → Except Tag BlockHeaderL2} {st : L1St}
    {t : Transaction} {r : Except (Tag × AccountBook) L1St}
    (hstep : l1Step cb st t = some r) : treePresL1 st.book.proof_tree r := by
  cases t with
  | Pay tx =>
    have hu := payment_errUnchanged st.book tx
    simp only [l1Step, Option.bind_eq_bind] at hstep
    cases hr : st.book.process_payment tx with
    | none => rw [hr] at hstep; cases hstep
    | some p =>
      rw [hr] at hstep
      rw [hr] at hu
      obtain ⟨r0, b⟩ := p
      cases r0 with
      | error e =>
        simp at hstep
        subst hstep
        exact hu.1
      | ok updates =>
        simp at hstep
        subst hstep
        exact hu.1
  | Deposit tx =>
    have hu := deposit_l1_errUnchanged st.book tx
    simp only [l1Step, Option.bind_eq_bind] at hstep
    cases hr : st.book.process_deposit_l1 tx with
    | none => rw [hr] at hstep; cases hstep
    | some p =>
      rw [hr] at hstep
      rw [hr] at hu
      obtain ⟨r0, b⟩ := p
      cases r0 with
      | error e =>
        simp at hstep
        subst hstep
        exact hu.1
      | ok updates =>
        simp at hstep
        subst hstep
        exact hu.1
  | RollupCreate tx =>
    have hu := create_errUnchanged st.book tx
    simp only [l1Step, Option.bind_eq_bind] at hstep
    cases hr : st.book.process_create_rollup_account tx with
    | none => rw [hr] at hstep; cases hstep
    | some p =>
      rw [hr] at hstep
      rw [hr] at hu
      obtain ⟨r0, b⟩ := p
      cases r0 with
      | error e =>
        simp at hstep
        subst hstep
        exact hu.1
      | ok updates =>
        simp at hstep
        subst hstep
        exact hu.1
  | RollupUpdate tx =>
    have hu := rollup_update_errUnchanged st.book tx cb
    simp only [l1Step, Option.bind_eq_bind] at hstep
    cases hr : st.book.process_rollup_state_update tx cb with
    | none => rw [hr] at hstep; cases hstep
    | some p =>
      rw [hr] at hstep
      rw [hr] at hu
      obtain ⟨r0, b⟩ := p
      cases r0 with
      | error e =>
        simp at hstep
        subst hstep
        exact hu.1
      | ok updates =>
        simp at hstep
        subst hstep
        exact hu.1
  | DepositL2 tx =>
    simp [l1Step] at hstep
    subst hstep
    rfl
  | Withdrawal tx =>
    simp [l1Step] at hstep
    subst hstep
    rfl

theorem l1Loop_tree {cb : List Nat → Except Tag BlockHeaderL2} {ts : List Transaction}
    {st : L1St} {r : Except (Tag × AccountBook) L1St}
    (hloop : l1Loop cb ts st = some r) : treePresL1 st.book.proof_tree r := by
  induction ts generalizing st with
  | nil =>
    simp [l1Loop] at hloop
    subst hloop
    rfl
  | cons t ts ih =>
    simp only [l1Loop, Option.bind_eq_bind] at hloop
    cases hs : l1Step cb st t with
    | none => rw [hs] at hloop; cases hloop
    | some r1 =>
      rw [hs] at hloop
      cases r1 with
      | error e =>
        simp at hloop
        subst hloop
        exact l1Step_tree hs
      | ok st1 =>
        simp only [Option.some_bind] at hloop
        have h1 : st1.book.proof_tree = st.book.proof_tree := l1Step_tree hs
        have h2 := ih hloop
        cases r with
        | ok st2 =>
          simp only [treePresL1] at h2 ⊢
          exact h2.trans h1
        | error p =>
          simp only [treePresL1] at h2 ⊢
          exact h2.trans h1

/-- C4 counterexample: in the two-transaction block `c4d` (an accepted payment
followed by a payment with a wrong sequence number) the L2 engine returns the
error `sqn`, yet the sender's balance in the account book after the call is 95
while it was 100 before the call: the book is not left unchanged. -/
theorem c4_counterexample :
    (c4run.map fun p => p.1) = some (.error "sqn") ∧
    (c4run.bind fun p => alookup (pk_to_hash 0) p.2.account_book.accounts).map
      Account.amount = some 95 ∧
    (alookup (pk_to_hash 0) c4d.account_book.accounts).map Account.amount = some 100 :=
  ⟨rfl, rfl, rfl⟩

/-- C4 (amended): when an engine `process` returns an error, the trie — hence
the trie root — and the container's `parent`, `sqn` and transaction list are
unchanged (nothing was committed), and every book operation that returns an
error tag leaves the book exactly as given; however the account map may retain
the effects of transactions accepted earlier in the same aborted block. -/
theorem c4_engine_error_effects :
    (∀ (d : EngineData) (cb : List Nat → Except Tag BlockHeaderL2) (e : Tag)
        (d2 : EngineData), l1_process d cb = some (.error e, d2) →
        d2.account_book.proof_tree = d.account_book.proof_tree ∧
        d2.account_book.root = d.account_book.root ∧
        d2.parent = d.parent ∧ d2.sqn = d.sqn ∧ d2.txns = d.txns) ∧
    (∀ (d : EngineData) (e : Tag) (d2 : EngineData),
        l2_process d = some (.error e, d2) →
        d2.account_book.proof_tree = d.account_book.proof_tree ∧
        d2.account_book.root = d.account_book.root ∧
        d2.parent = d.parent ∧ d2.sqn = d.sqn ∧ d2.txns = d.txns) ∧
    (∀ (b : AccountBook) (tx : Tx Payment) (e : Tag) (b2 : AccountBook),
        b.process_payment tx = some (.error e, b2) → b2 = b) ∧
    (∀ (b : AccountBook) (tx : Tx CreateRollupAccount) (e : Tag) (b2 : AccountBook),
        b.process_create_rollup_account tx = some (.error e, b2) → b2 = b) ∧
    (∀ (b : AccountBook) (tx : Tx L1ToL2Deposit) (e : Tag) (b2 : AccountBook),
        b.process_deposit_l1 tx = some (.error e, b2) → b2 = b) ∧
    (∀ (b : AccountBook) (tx : Tx L1ToL2Deposit) (e : Tag) (b2 : AccountBook),
        b.process_deposit_l2 tx = some (.error e, b2) → b2 = b) ∧
    (∀ (b : AccountBook) (tx : Tx L2ToL1Withdrawal) (w : List WithdrawalRecord)
        (e : Tag) (b2 : AccountBook) (w2 : List WithdrawalRecord),
        b.process_withdrawal tx w = some (.error e, b2, w2) → b2 = b ∧ w2 = w) ∧
    (∀ (b : AccountBook) (tx : Tx RollupStateUpdate)
        (cb : List Nat → Except Tag BlockHeaderL2) (e : Tag) (b2 : AccountBook),
        b.process_rollup_state_update tx cb = some (.error e, b2) → b2 = b) := by
  refine ⟨?_, ?_, ?_, ?_, ?_, ?_, ?_, ?_⟩
  · intro d cb e d2 h
    unfold l1_process l1_process_ord at h
    cases hloop : l1Loop cb d.txns { book := d.account_book, upd := [], deposits := [] } with
    | none => rw [hloop] at h; cases h
    | some r =>
      rw [hloop] at h
      cases r with
      | error p =>
        obtain ⟨e0, b⟩ := p
        simp only [Option.some.injEq, Prod.mk.injEq] at h
        obtain ⟨he, hd⟩ := h
        have htree : b.proof_tree = d.account_book.proof_tree := l1Loop_tree hloop
        rw [← hd]
        refine ⟨htree, ?_, rfl, rfl, rfl⟩
        simp only [AccountBook.root, htree]
      | ok st =>
        simp only [Option.bind_eq_bind] at h
        rw [Option.bind_eq_some] at h
        obtain ⟨d1, hupd, hinj⟩ := h
        simp at hinj
  · intro d e d2 h
    unfold l2_process l2_process_ord at h
    cases hloop : l2Loop d.txns { book := d.account_book, upd := [], wrecs := [], msgs := [] } with
    | none => rw [hloop] at h; cases h
    | some r =>
      rw [hloop] at h
      cases r with
      | error p =>
        obtain ⟨e0, b⟩ := p
        simp only [Option.some.injEq, Prod.mk.injEq] at h
        obtain ⟨he, hd⟩ := h
        have htree : b.proof_tree = d.account_book.proof_tree := l2Loop_tree hloop
        rw [← hd]
        refine ⟨htree, ?_, rfl, rfl, rfl⟩
        simp only [AccountBook.root, htree]
      | ok st =>
        simp only [Option.bind_eq_bind] at h
        rw [Option.bind_eq_some] at h
        obtain ⟨d1, hupd, hinj⟩ := h
        simp at hinj
  · intro b tx e b2 h
    have hu := payment_errUnchanged b tx
    rw [h] at hu
    exact hu.2 e rfl
  · intro b tx e b2 h
    have hu := create_errUnchanged b tx
    rw [h] at hu
    exact hu.2 e rfl
  · intro b tx e b2 h
    have hu := deposit_l1_errUnchanged b tx
    rw [h] at hu
    exact hu.2 e rfl
  · intro b tx e b2 h
    have hu := deposit_l2_errUnchanged b tx
    rw [h] at hu
    exact hu.2 e rfl
  · intro b tx w e b2 w2 h
    have hu := withdrawal_errUnchanged b tx w
    rw [h] at hu
    exact hu.2 e rfl
  · intro b tx cb e b2 h
    have hu := rollup_update_errUnchanged b tx cb
    rw [h] at hu
    exact hu.2 e rfl

/-- Witness for the amended C4 at the concrete failing block `c4d`. -/
theorem c4_engine_error_effects_witness :
    c4d2.account_book.root = c4d.account_book.root ∧ c4d2.parent = c4d.parent ∧
    c4d2.sqn = c4d.sqn ∧ c4d2.txns = c4d.txns :=
  let h := c4_engine_error_effects.2.1 c4d "sqn" c4d2 rfl
  ⟨h.2.1, h.2.2.1, h.2.2.2.1, h.2.2.2.2⟩

/-- C10: `BlockHeaderL1::hash` absorbs only `parent`, `state_root`, `sqn` and
`txns_hash`; two headers that agree on those four fields hash identically no
matter how their `events` fields differ — the admitted-deposit events are not
bound by the header hash. -/
theorem c10_l1_header_hash_ignores_events (h1 h2 : BlockHeaderL1)
    (hp : h1.parent = h2.parent) (hs : h1.state_root = h2.state_root)
    (hq : h1.sqn = h2.sqn) (ht : h1.txns_hash = h2.txns_hash) :
    h1.hash = h2.hash := by
  simp [BlockHeaderL1.hash, hp, hs, hq, ht]

/-- Witness for C10: two concrete headers with different `events` but the same
hash. -/
theorem c10_l1_header_hash_ignores_events_witness :
    hA.events ≠ hB.events ∧ hA.hash = hB.hash :=
  ⟨by decide, c10_l1_header_hash_ignores_events hA hB rfl rfl rfl rfl⟩

/-- C1 (the code panics instead of returning an error tag): on the reachable
book `rb1` — faucet plus a freshly created rollup account whose inbox is
empty — a `RollupUpdate` whose receipt callback yields a header with
`inbox_msg_count = 1` makes `process_rollup_state_update` read `inbox[0]` out
of bounds: the operation panics (`none`), refuting the claim that the
inbox-prefix hashing never indexes past the inbox end and yields an error tag. -/
theorem c1_rollup_update_inbox_panic : c1run = none := rfl

/-- C2 (the change-set omits the credited recipients): on the reachable book
`rb2` the rollup update `c2run` succeeds carrying one withdrawal of 5 to the
fresh key 9; the recipient account is created and credited (balance 5), but
the returned change-set names only the rollup account — no `(id, hash)` entry
for the credited recipient, contrary to the claim. -/
theorem c2_rollup_update_changeset_missing_recipient :
    chgKeys c2run = some [pk_to_hash 1] ∧
    pk_to_hash 9 ≠ pk_to_hash 1 ∧
    (c2run.bind fun p => alookup (pk_to_hash 9) p.2.accounts) =
      some { owner := 9, amount := 5, sqn_expect := 0, rollup := none } :=
  ⟨rfl, by decide, rfl⟩

/-- C3 (committing the returned change-set does not restore coherence): the
book `rb2` is coherent (`verify_partial_root` holds), but after the successful
rollup update `c2run` and committing its change-set via `update_tree`, the
credited recipient has an account entry with no trie leaf, so
`verify_partial_root` is false — refuting the claim for the public operation
`process_rollup_state_update`. -/
theorem c3_verify_partial_root_false_after_commit :
    rb2.verify_partial_root = true ∧ c3book.verify_partial_root = false :=
  ⟨rfl, rfl⟩

/-! Helper lemmas: successful `sender_check`, balance sums, and the L2 loop
accumulators. -/

theorem sender_check_ok {α : Type} [TxPayload α] {b : AccountBook} {tx : Tx α}
    {i : AccountID} (h : b.sender_check tx = .ok i) :
    i = pk_to_hash tx.sender ∧
    ∃ a, alookup (pk_to_hash tx.sender) b.accounts = some a ∧
      a.sqn_expect = tx.sqn ∧ TxPayload.sender_qualify tx.payload a = true ∧
      tx.sig_verify = true := by
  unfold AccountBook.sender_check at h
  cases hsig : tx.sig_verify with
  | false => simp [hsig] at h
  | true =>
    rw [hsig] at h
    simp only [Bool.not_true] at h
    cases hl : alookup (pk_to_hash tx.sender) b.accounts with
    | none => rw [hl] at h; simp at h
    | some a =>
      rw [hl] at h
      split at h
      next hc => exact absurd hc (by simp)
      next hc =>
        split at h
        next a2 ha2 =>
          obtain rfl := Option.some.inj ha2
          split at h
          next hsq => exact Except.noConfusion h
          next hsq =>
            split at h
            next hq => exact Except.noConfusion h
            next hq =>
              push_neg at hsq
              refine ⟨(Except.ok.inj h).symm, a, rfl, hsq, ?_, rfl⟩
              cases hqv : TxPayload.sender_qualify tx.payload a with
              | false => rw [hqv] at hq; exact absurd rfl hq
              | true => rfl
        next ha2 => exact Option.noConfusion ha2

theorem sumAmt_sinsert_new {l : List (AccountID × Account)} {k : AccountID}
    (hl : alookup k l = none) (v : Account) :
    sumAmt (sinsert k v l) = sumAmt l + v.amount := by
  induction l with
  | nil => simp [sinsert, sumAmt]
  | cons p t ih =>
    obtain ⟨k1, v1⟩ := p
    simp only [alookup] at hl
    by_cases he : k = k1
    · rw [if_pos he] at hl; cases hl
    · rw [if_neg he] at hl
      by_cases hlt : keyLt k k1 = true
      · simp [sinsert, hlt, sumAmt]
        omega
      · simp only [sinsert, hlt, if_false, if_neg he]
        simp [sumAmt] at ih ⊢
        rw [ih hl]
        omega

theorem sumAmt_sinsert_replace {l : List (AccountID × Account)} (hch : KChain l)
    {k : AccountID} {a : Account} (hl : alookup k l = some a) (v : Account) :
    sumAmt (sinsert k v l) + a.amount = sumAmt l + v.amount := by
  induction l with
  | nil => cases hl
  | cons p t ih =>
    obtain ⟨k1, v1⟩ := p
    simp only [alookup] at hl
    by_cases he : k = k1
    · rw [if_pos he] at hl
      subst he
      have : a = v1 := by cases hl; rfl
      subst this
      simp [sinsert, keyLt_irrefl, sumAmt]
      omega
    · rw [if_neg he] at hl
      by_cases hlt : keyLt k k1 = true
      · exfalso
        have hall := KChain_all_gt hch
        have : alookup k t = none :=
          alookup_none_of_lt (fun q hq => keyLt_trans hlt (hall q hq))
        rw [this] at hl
        cases hl
      · simp only [sinsert, hlt, if_false, if_neg he]
        have := ih (KChain_tail hch) hl
        simp [sumAmt] at this ⊢
        omega

theorem withdrawal_ok_wrecs {b : AccountBook} {tx : Tx L2ToL1Withdrawal}
    {w0 : List WithdrawalRecord} {out : List (AccountID × Hash)} {b2 : AccountBook}
    {w2 : List WithdrawalRecord}
    (h : b.process_withdrawal tx w0 = some (.ok out, b2, w2)) :
    w2 = w0 ++ [{ toPk := tx.sender, amount := tx.payload.amount }] := by
  unfold AccountBook.process_withdrawal at h
  cases hsc : b.sender_check tx with
  | error e => rw [hsc] at h; simp at h
  | ok id_sender =>
    rw [hsc] at h
    simp only [Option.bind_eq_bind] at h
    rw [Option.bind_eq_some] at h
    obtain ⟨a, ha, h⟩ := h
    rw [Option.bind_eq_some] at h
    obtain ⟨amt, hamt, h⟩ := h
    rw [Option.bind_eq_some] at h
    obtain ⟨sq, hsq, h⟩ := h
    simp at h
    exact h.2.2.symm

/-- C6: `sender_check` fails in the fixed cascade order — `sig` when the
envelope signature does not verify; otherwise `account` when no account sits
at `pk_to_hash sender`; otherwise `sqn` when the envelope sequence differs
from the account's `sqn_expect`; otherwise `sender` when the variant-specific
qualification fails (balance at least the amount for payments, deposits and
withdrawals; trivially true for the rollup operations); otherwise it returns
the sender id.  `sender_check` itself is read-only, and a payment rejected by
it returns the book unchanged (the concrete sqn=7-against-0 case is the
witness). -/
theorem c6_sender_check_cascade {α : Type} [TxPayload α] (b : AccountBook) (tx : Tx α) :
    (tx.sig_verify = false → b.sender_check tx = .error "sig") ∧
    (tx.sig_verify = true → alookup (pk_to_hash tx.sender) b.accounts = none →
      b.sender_check tx = .error "account") ∧
    (∀ a, tx.sig_verify = true → alookup (pk_to_hash tx.sender) b.accounts = some a →
      a.sqn_expect ≠ tx.sqn → b.sender_check tx = .error "sqn") ∧
    (∀ a, tx.sig_verify = true → alookup (pk_to_hash tx.sender) b.accounts = some a →
      a.sqn_expect = tx.sqn → TxPayload.sender_qualify tx.payload a = false →
      b.sender_check tx = .error "sender") ∧
    (∀ a, tx.sig_verify = true → alookup (pk_to_hash tx.sender) b.accounts = some a →
      a.sqn_expect = tx.sqn → TxPayload.sender_qualify tx.payload a = true →
      b.sender_check tx = .ok (pk_to_hash tx.sender)) ∧
    (∀ (p : Payment) (acc : Account),
      TxPayload.sender_qualify p acc = decide (p.amount ≤ acc.amount)) ∧
    (∀ (p : L1ToL2Deposit) (acc : Account),
      TxPayload.sender_qualify p acc = decide (p.amount ≤ acc.amount)) ∧
    (∀ (p : L2ToL1Withdrawal) (acc : Account),
      TxPayload.sender_qualify p acc = decide (p.amount ≤ acc.amount)) ∧
    (∀ (p : CreateRollupAccount) (acc : Account), TxPayload.sender_qualify p acc = true) ∧
    (∀ (p : RollupStateUpdate) (acc : Account), TxPayload.sender_qualify p acc = true) ∧
    (∀ (txp : Tx Payment) (e : Tag) (b2 : AccountBook),
      b.process_payment txp = some (.error e, b2) → b2 = b) := by
  refine ⟨?_, ?_, ?_, ?_, ?_, fun _ _ => rfl, fun _ _ => rfl, fun _ _ => rfl,
    fun _ _ => rfl, fun _ _ => rfl, ?_⟩
  · intro hsig
    simp [AccountBook.sender_check, hsig]
  · intro hsig hl
    simp [AccountBook.sender_check, hsig, hl]
  · intro a hsig hl hsq
    simp [AccountBook.sender_check, hsig, hl, hsq]
  · intro a hsig hl hsq hq
    simp [AccountBook.sender_check, hsig, hl, hsq, hq]
  · intro a hsig hl hsq hq
    simp [AccountBook.sender_check, hsig, hl, hsq, hq]
  · intro txp e b2 h
    have hu := payment_errUnchanged b txp
    rw [h] at hu
    exact hu.2 e rfl

/-- Witness for C6: the spec's concrete case — a payment with sqn 7 against
`sqn_expect` 0 is rejected with `sqn` and the book is returned unchanged. -/
theorem c6_sender_check_cascade_witness :
    c5b.sender_check c6tx = .error "sqn" ∧
    c5b.process_payment c6tx = some (.error "sqn", c5b) :=
  ⟨(c6_sender_check_cascade c5b c6tx).2.2.1 (Account.new 0 100 none) (by decide) rfl
    (by decide), rfl⟩

theorem get_partial_fold_none (b : AccountBook) {ids : List AccountID} {id : AccountID}
    (hmem : id ∈ ids) (hmiss : alookup id b.accounts = none)
    (init : List (AccountID × Account)) :
    (List.foldlM (fun acc i => (alookup i b.accounts).bind fun a =>
      some (sinsert i a acc)) init ids) = none := by
  induction ids generalizing init with
  | nil => cases hmem
  | cons i0 rest ih =>
    rw [List.foldlM_cons]
    rcases List.mem_cons.mp hmem with he | hmem2
    · subst he
      rw [hmiss]
      rfl
    · cases hl : alookup i0 b.accounts with
      | none => rfl
      | some a =>
        simp only [hl, Option.bind_eq_bind, Option.some_bind]
        exact ih hmem2 (sinsert i0 a init)

/-- C9: `get_partial` panics — modelled as `none`, distinct from any error
return, which its `AccountBook` result type does not even admit — whenever
some affected account id of an all-L2 transaction list is absent from the
account map: `self.accounts.get(id).unwrap()` unwraps `None`.  It neither
returns an error nor skips the missing account. -/
theorem c9_get_partial_panics_on_missing (b : AccountBook) (txns : List Transaction)
    (ids : List AccountID) (hids : b.get_affected_account_ids txns = some ids)
    (id : AccountID) (hmem : id ∈ ids) (hmiss : alookup id b.accounts = none) :
    b.get_partial txns = none := by
  unfold AccountBook.get_partial
  rw [hids]
  simp only [Option.bind_eq_bind, Option.some_bind]
  rw [get_partial_fold_none b hmem hmiss []]
  rfl

/-- Witness for C9: on the genesis book, the single payment `payTo2` to the
never-seen key 2 is accepted by `process_payment`, yet `get_partial` on that
one-transaction list panics because the destination id is not in the map. -/
theorem c9_get_partial_panics_on_missing_witness :
    c5b.get_partial [.Pay payTo2] = none ∧
    (chgKeys (c5b.process_payment payTo2)).isSome = true :=
  ⟨c9_get_partial_panics_on_missing c5b [.Pay payTo2]
      [pk_to_hash 0, pk_to_hash 2] rfl (pk_to_hash 2) (by decide) rfl,
   by decide⟩

/-- C5 counterexample: the self-payment `c5self` (destination key = sender
key, amount 5) is accepted by `process_payment` — two change-set entries are
returned — but the sender's balance is 100 after as before, not decreased by
5: the per-account clauses of the claim fail for self-payments. -/
theorem c5_self_payment_counterexample :
    chgKeys c5run = some [pk_to_hash 0, pk_to_hash 0] ∧
    (c5run.bind fun p => alookup (pk_to_hash 0) p.2.accounts).map Account.amount =
      some 100 :=
  ⟨rfl, rfl⟩

/-- C5 (amended: for a destination account distinct from the sender).  An
accepted payment debits the sender by exactly the amount (which the balance
covers), bumps the sender's `sqn_expect` by one, credits the destination by
exactly the amount — creating it with the credited amount when absent —
returns exactly the two entries sender-then-destination carrying the final
account hashes, and preserves the sum of all balances.  (For a self-payment
the balance is unchanged; see the counterexample.) -/
theorem c5_payment_accepted_effects (b : AccountBook) (tx : Tx Payment)
    (hch : KChain b.accounts)
    (hne : pk_to_hash tx.payload.toPk ≠ pk_to_hash tx.sender)
    (out : List (AccountID × Hash)) (b2 : AccountBook)
    (hok : b.process_payment tx = some (.ok out, b2)) :
    ∃ a_sender a_sender2 a_to2,
      alookup (pk_to_hash tx.sender) b.accounts = some a_sender ∧
      tx.payload.amount ≤ a_sender.amount ∧
      alookup (pk_to_hash tx.sender) b2.accounts = some a_sender2 ∧
      a_sender2.amount + tx.payload.amount = a_sender.amount ∧
      a_sender2.sqn_expect = a_sender.sqn_expect + 1 ∧
      alookup (pk_to_hash tx.payload.toPk) b2.accounts = some a_to2 ∧
      a_to2.amount = (match alookup (pk_to_hash tx.payload.toPk) b.accounts with
                      | none => 0
                      | some a => a.amount) + tx.payload.amount ∧
      out = [(pk_to_hash tx.sender, a_sender2.hash),
             (pk_to_hash tx.payload.toPk, a_to2.hash)] ∧
      totalBalance b2 = totalBalance b := by
  unfold AccountBook.process_payment at hok
  cases hsc : b.sender_check tx with
  | error e => rw [hsc] at hok; simp at hok
  | ok id_sender =>
    rw [hsc] at hok
    obtain ⟨hi, a, hl, hsq, hq, hsig⟩ := sender_check_ok hsc
    subst hi
    have hle : tx.payload.amount ≤ a.amount := of_decide_eq_true hq
    have hsub : sub128 a.amount tx.payload.amount =
        some (a.amount - tx.payload.amount) := by
      unfold sub128
      rw [if_pos hle]
    simp only [Option.bind_eq_bind] at hok
    rw [hl] at hok
    simp only [Option.some_bind] at hok
    rw [hsub] at hok
    simp only [Option.some_bind] at hok
    cases hadd : add32 a.sqn_expect 1 with
    | none => rw [hadd] at hok; simp at hok
    | some sq =>
      rw [hadd] at hok
      have hsq1 : sq = a.sqn_expect + 1 := by
        unfold add32 at hadd
        split at hadd
        · exact (Option.some.inj hadd).symm
        · cases hadd
      simp only [Option.some_bind] at hok
      rw [alookup_sinsert_ne hne] at hok
      cases hlb : alookup (pk_to_hash tx.payload.toPk) b.accounts with
      | none =>
        rw [hlb] at hok
        simp only [Option.some.injEq, Prod.mk.injEq, Except.ok.injEq] at hok
        obtain ⟨hout, hb2⟩ := hok
        refine ⟨a, { a with amount := a.amount - tx.payload.amount, sqn_expect := sq },
          Account.new tx.payload.toPk tx.payload.amount none, hl, hle, ?_, ?_, ?_, ?_, ?_, ?_, ?_⟩
        · rw [← hb2]
          rw [alookup_sinsert_ne (fun e => hne e.symm)]
          exact alookup_sinsert_self _ _ _
        · simp
          omega
        · simp [hsq1]
        · rw [← hb2]
          exact alookup_sinsert_self _ _ _
        · simp [Account.new]
        · rw [← hout]
        · rw [← hb2]
          show sumAmt _ = sumAmt b.accounts
          have h1 : alookup (pk_to_hash tx.payload.toPk)
              (sinsert (pk_to_hash tx.sender)
                { a with amount := a.amount - tx.payload.amount, sqn_expect := sq }
                b.accounts) = none := by
            rw [alookup_sinsert_ne hne]
            exact hlb
          rw [sumAmt_sinsert_new h1]
          have h2 := sumAmt_sinsert_replace hch hl
            { a with amount := a.amount - tx.payload.amount, sqn_expect := sq }
          simp [Account.new]
          simp at h2
          omega
      | some a_to =>
        rw [hlb] at hok
        simp only [Option.bind_eq_bind] at hok
        cases hadd2 : add128 a_to.amount tx.payload.amount with
        | none => rw [hadd2] at hok; simp at hok
        | some amt2 =>
          rw [hadd2] at hok
          have hamt2 : amt2 = a_to.amount + tx.payload.amount := by
            unfold add128 at hadd2
            split at hadd2
            · exact (Option.some.inj hadd2).symm
            · cases hadd2
          simp only [Option.some_bind, Option.some.injEq, Prod.mk.injEq,
            Except.ok.injEq] at hok
          obtain ⟨hout, hb2⟩ := hok
          refine ⟨a, { a with amount := a.amount - tx.payload.amount, sqn_expect := sq },
            { a_to with amount := amt2 }, hl, hle, ?_, ?_, ?_, ?_, ?_, ?_, ?_⟩
          · rw [← hb2]
            rw [alookup_sinsert_ne (fun e => hne e.symm)]
            exact alookup_sinsert_self _ _ _
          · simp
            omega
          · simp [hsq1]
          · rw [← hb2]
            exact alookup_sinsert_self _ _ _
          · simp [hamt2]
          · rw [← hout]
          · rw [← hb2]
            show sumAmt _ = sumAmt b.accounts
            have hacc : alookup (pk_to_hash tx.payload.toPk)
                (sinsert (pk_to_hash tx.sender)
                  { a with amount := a.amount - tx.payload.amount, sqn_expect := sq }
                  b.accounts) = some a_to := by
              rw [alookup_sinsert_ne hne]
              exact hlb
            have hch2 : KChain (sinsert (pk_to_hash tx.sender)
                { a with amount := a.amount - tx.payload.amount, sqn_expect := sq }
                b.accounts) := KChain_sinsert _ _ hch
            have h1 := sumAmt_sinsert_replace hch2 hacc { a_to with amount := amt2 }
            have h2 := sumAmt_sinsert_replace hch hl
              { a with amount := a.amount - tx.payload.amount, sqn_expect := sq }
            dsimp only at h1 h2 ⊢
            omega

/-- Witness for the amended C5: the faucet pays 5 to the fresh key 2. -/
theorem c5_payment_accepted_effects_witness :
    ∃ a_sender a_sender2 a_to2,
      alookup (pk_to_hash payTo2.sender) c5b.accounts = some a_sender ∧
      payTo2.payload.amount ≤ a_sender.amount ∧
      alookup (pk_to_hash payTo2.sender) (bookOf (c5b.process_payment payTo2)).accounts =
        some a_sender2 ∧
      a_sender2.amount + payTo2.payload.amount = a_sender.amount ∧
      a_sender2.sqn_expect = a_sender.sqn_expect + 1 ∧
      alookup (pk_to_hash payTo2.payload.toPk)
        (bookOf (c5b.process_payment payTo2)).accounts = some a_to2 ∧
      a_to2.amount = (match alookup (pk_to_hash payTo2.payload.toPk) c5b.accounts with
                      | none => 0
                      | some a => a.amount) + payTo2.payload.amount ∧
      outOf (c5b.process_payment payTo2) =
        [(pk_to_hash payTo2.sender, a_sender2.hash),
         (pk_to_hash payTo2.payload.toPk, a_to2.hash)] ∧
      totalBalance (bookOf (c5b.process_payment payTo2)) = totalBalance c5b :=
  c5_payment_accepted_effects c5b payTo2 (by decide) (by decide)
    (outOf (c5b.process_payment payTo2)) (bookOf (c5b.process_payment payTo2)) rfl

/-! The L2 loop accumulators: deposit ids and withdrawal records. -/

theorem depositIds_cons (t : Transaction) (ts : List Transaction) :
    depositIds (t :: ts) = depositIds [t] ++ depositIds ts := by
  cases t <;> simp [depositIds]

theorem withdrawalRecords_cons (t : Transaction) (ts : List Transaction) :
    withdrawalRecords (t :: ts) = withdrawalRecords [t] ++ withdrawalRecords ts := by
  cases t <;> simp [withdrawalRecords]

theorem l2Step_acc {st st1 : L2St} {t : Transaction}
    (h : l2Step st t = some (.ok st1)) :
    isL2Tx t = true ∧ st1.msgs = st.msgs ++ depositIds [t] ∧
    st1.wrecs = st.wrecs ++ withdrawalRecords [t] := by
  cases t with
  | Pay tx =>
    simp only [l2Step, Option.bind_eq_bind] at h
    cases hr : st.book.process_payment tx with
    | none => rw [hr] at h; cases h
    | some p =>
      rw [hr] at h
      obtain ⟨r0, b⟩ := p
      cases r0 with
      | error e => simp at h
      | ok updates =>
        simp at h
        subst h
        simp [isL2Tx, depositIds, withdrawalRecords]
  | DepositL2 tx =>
    simp only [l2Step, Option.bind_eq_bind] at h
    cases hr : st.book.process_deposit_l2 tx with
    | none => rw [hr] at h; cases h
    | some p =>
      rw [hr] at h
      obtain ⟨r0, b⟩ := p
      cases r0 with
      | error e => simp at h
      | ok updates =>
        simp at h
        subst h
        simp [isL2Tx, depositIds, withdrawalRecords]
  | Withdrawal tx =>
    simp only [l2Step, Option.bind_eq_bind] at h
    cases hr : st.book.process_withdrawal tx st.wrecs with
    | none => rw [hr] at h; cases h
    | some p =>
      rw [hr] at h
      obtain ⟨r0, b, w⟩ := p
      cases r0 with
      | error e => simp at h
      | ok updates =>
        have hw := withdrawal_ok_wrecs hr
        simp at h
        subst h
        simp [isL2Tx, depositIds, withdrawalRecords, hw]
  | Deposit tx => simp [l2Step] at h
  | RollupCreate tx => simp [l2Step] at h
  | RollupUpdate tx => simp [l2Step] at h

theorem l2Loop_acc {ts : List Transaction} {st st2 : L2St}
    (h : l2Loop ts st = some (.ok st2)) :
    (∀ t ∈ ts, isL2Tx t = true) ∧ st2.msgs = st.msgs ++ depositIds ts ∧
    st2.wrecs = st.wrecs ++ withdrawalRecords ts := by
  induction ts generalizing st with
  | nil =>
    simp [l2Loop] at h
    subst h
    simp [depositIds, withdrawalRecords]
  | cons t ts ih =>
    simp only [l2Loop, Option.bind_eq_bind] at h
    cases hs : l2Step st t with
    | none => rw [hs] at h; cases h
    | some r1 =>
      rw [hs] at h
      cases r1 with
      | error e => simp at h
      | ok st1 =>
        simp only [Option.some_bind] at h
        obtain ⟨ht, hm, hw⟩ := l2Step_acc hs
        obtain ⟨hts, hm2, hw2⟩ := ih h
        refine ⟨?_, ?_, ?_⟩
        · intro u hu
          rcases List.mem_cons.mp hu with hu | hu
          · subst hu; exact ht
          · exact hts u hu
        · rw [hm2, hm, List.append_assoc, ← depositIds_cons]
        · rw [hw2, hw, List.append_assoc, ← withdrawalRecords_cons]

/-- C7: a successful L2 `process` admits only `Pay`, `DepositL2` and
`Withdrawal` transactions, and returns a header whose `inbox_msg_hash` is the
hash of the concatenated envelope ids of the `DepositL2` transactions in
submission order, whose `inbox_msg_count` is their count, whose `withdrawals`
are the records accumulated from the `Withdrawal` transactions in order, and
whose `txns_hash` hashes all envelope ids in submission order; afterwards the
container holds `parent = header.hash`, an empty transaction list, and `sqn`
incremented by one.  (The hypothesis on the list length reflects that a Rust
`Vec` on the 32-bit zkVM target cannot reach `2^32` elements, which the
unbounded `List` embedding cannot express; the `usize`-to-`u32` cast in the
source is modelled faithfully as a reduction mod `2^32`.) -/
theorem c7_l2_header_contents (d : EngineData) (hlen : d.txns.length < U32LIM)
    (hdr : BlockHeaderL2) (d2 : EngineData)
    (hok : l2_process d = some (.ok hdr, d2)) :
    (∀ t ∈ d.txns, isL2Tx t = true) ∧
    hdr.inbox_msg_hash = sha ((depositIds d.txns).map HD.hsh) ∧
    hdr.inbox_msg_count = (depositIds d.txns).length ∧
    hdr.withdrawals = withdrawalRecords d.txns ∧
    hdr.txns_hash = tx_set_hash d.txns ∧
    d2.parent = hdr.hash ∧ d2.txns = [] ∧ d2.sqn = d.sqn + 1 := by
  unfold l2_process l2_process_ord at hok
  cases hloop : l2Loop d.txns { book := d.account_book, upd := [], wrecs := [], msgs := [] } with
  | none => rw [hloop] at hok; cases hok
  | some r =>
    rw [hloop] at hok
    cases r with
    | error p => simp at hok
    | ok st =>
      obtain ⟨hts, hm, hw⟩ := l2Loop_acc hloop
      simp only [List.nil_append] at hm hw
      simp only [Option.bind_eq_bind] at hok
      rw [Option.bind_eq_some] at hok
      obtain ⟨d1, hupd, hinj⟩ := hok
      simp only [Option.some.injEq, Prod.mk.injEq, Except.ok.injEq] at hinj
      obtain ⟨hhdr, hd1⟩ := hinj
      unfold EngineData.update at hupd
      simp only [Option.bind_eq_bind] at hupd
      rw [Option.bind_eq_some] at hupd
      obtain ⟨s, hs, hupd2⟩ := hupd
      have hs1 : s = d.sqn + 1 := by
        unfold add32 at hs
        split at hs
        · exact (Option.some.inj hs).symm
        · cases hs
      simp only [Option.some.injEq] at hupd2
      have hcnt : (depositIds d.txns).length % U32LIM = (depositIds d.txns).length :=
        Nat.mod_eq_of_lt (Nat.lt_of_le_of_lt (List.length_filterMap_le _ _) hlen)
      subst hhdr
      subst hd1
      subst hupd2
      refine ⟨hts, ?_, ?_, ?_, rfl, ?_, rfl, hs1⟩
      · rw [hm]
      · rw [hm, hcnt]
      · rw [hw]
      · rfl

/-- Witness for C7 at the concrete block `c7d` (one `DepositL2`, one
`Withdrawal`). -/
theorem c7_l2_header_contents_witness :
    c7hdr.inbox_msg_hash = sha ((depositIds c7d.txns).map HD.hsh) ∧
    c7hdr.inbox_msg_count = (depositIds c7d.txns).length ∧
    c7hdr.withdrawals = withdrawalRecords c7d.txns ∧
    c7d2.parent = c7hdr.hash ∧ c7d2.txns = [] ∧ c7d2.sqn = c7d.sqn + 1 :=
  let h := c7_l2_header_contents c7d (by decide) c7hdr c7d2 rfl
  ⟨h.2.1, h.2.2.1, h.2.2.2.1, h.2.2.2.2.2.1, h.2.2.2.2.2.2.1, h.2.2.2.2.2.2.2⟩
